import Mathlib

/-!
Verification of the Watch-Together signaling core: a shallow embedding of
the room registry (`roomManager.js`), the socket event handlers
(`socket.js`) and the client-side negotiation logic (`useWebRTC.ts`),
together with proofs of the spec's membership, host-arbitration, routing
and candidate-queue properties.

Strings manipulated by the code (ids, names) are modelled as `List Char`
so that the JavaScript `trim`/`toUpperCase` operations admit proofs;
fixed error-message texts are kept as Lean `String` atoms.
-/

namespace WatchTogether

/-- Model of a JavaScript string value that the code inspects or edits. -/
abbrev Str := List Char

/-- Coerce a Lean string literal into the model representation. -/
def S (s : String) : Str := s.toList

/-- The whitespace characters removed by `String.prototype.trim`
(restricted to the ASCII whitespace the ids in this system can carry). -/
def isWsChar (c : Char) : Bool := c == ' ' || c == '\t' || c == '\n' || c == '\r'

/-- `String.prototype.trim`: drop whitespace from both ends. -/
def trimStr (s : Str) : Str :=
  ((s.dropWhile isWsChar).reverse.dropWhile isWsChar).reverse

/-- The lower-case/upper-case letter pairs acted on by `toUpperCase`
(ids are validated to be basic-latin alphanumeric, so the basic-latin
table is the relevant fragment of the JavaScript case fold). -/
def lowerUpper : List (Char × Char) :=
  [('a','A'), ('b','B'), ('c','C'), ('d','D'), ('e','E'), ('f','F'),
   ('g','G'), ('h','H'), ('i','I'), ('j','J'), ('k','K'), ('l','L'),
   ('m','M'), ('n','N'), ('o','O'), ('p','P'), ('q','Q'), ('r','R'),
   ('s','S'), ('t','T'), ('u','U'), ('v','V'), ('w','W'), ('x','X'),
   ('y','Y'), ('z','Z')]

/-- Upper-case one character, `toUpperCase` style. -/
def upChar (c : Char) : Char :=
  match lowerUpper.find? (fun p => p.1 == c) with
  | some p => p.2
  | none => c

/-- `String.prototype.toUpperCase`. -/
def upStr (s : Str) : Str := s.map upChar

/-- `roomId.trim().toUpperCase()` — the normal form used by the handlers. -/
def normId (s : Str) : Str := upStr (trimStr s)

/-- `/^[A-Z0-9]{4,20}$/i.test(roomId.trim())` — `validateRoomId` in `socket.js`. -/
def validateRoomId (roomId : Str) : Bool :=
  let t := trimStr roomId
  decide (4 ≤ t.length) && decide (t.length ≤ 20) && t.all Char.isAlphanum

/-- `/^[a-zA-Z0-9]{3,50}$/.test(userId.trim())` — `validateUserId` in `socket.js`. -/
def validateUserId (userId : Str) : Bool :=
  let t := trimStr userId
  decide (3 ≤ t.length) && decide (t.length ≤ 50) && t.all Char.isAlphanum

/-- `sanitizeString` in `socket.js`: trim, truncate, strip angle brackets. -/
def sanitizeString (s : Str) (maxLength : Nat) : Str :=
  ((trimStr s).take maxLength).filter (fun c => !(c == '<' || c == '>'))

/-! ## JavaScript `Map` as an insertion-ordered association list -/

/-- `Map.prototype.get` (`none` for a missing key). -/
def mapGet {α : Type} (m : List (Str × α)) (k : Str) : Option α :=
  (m.find? (fun p => p.1 == k)).map (fun p => p.2)

/-- `Map.prototype.has`. -/
def mapHas {α : Type} (m : List (Str × α)) (k : Str) : Bool :=
  (mapGet m k).isSome

/-- `Map.prototype.set`: update in place if the key exists (insertion
position preserved), otherwise append. A `Map` holds each key at most
once, so replacing the first occurrence is exactly the JS behaviour. -/
def mapSet {α : Type} (m : List (Str × α)) (k : Str) (v : α) : List (Str × α) :=
  match m with
  | [] => [(k, v)]
  | p :: t => if p.1 == k then (k, v) :: t else p :: mapSet t k v

/-- `Map.prototype.delete`. -/
def mapDelete {α : Type} (m : List (Str × α)) (k : Str) : List (Str × α) :=
  m.filter (fun p => !(p.1 == k))

/-! ## Room manager (`roomManager.js`) -/

/-- The user metadata passed to `addUser` (`userId`, optional `name`). -/
structure UserData where
  userId : Str
  name : Option Str
deriving Repr, DecidableEq

/-- A member record as stored in `room.users`. -/
structure User where
  socketId : Str
  userId : Str
  name : Str
  joinedAt : Nat
deriving Repr, DecidableEq

/-- A room: insertion-ordered member map, current host, creation time. -/
structure Room where
  id : Str
  users : List (Str × User)
  hostId : Option Str
  createdAt : Nat
deriving Repr, DecidableEq

/-- The registry owned by the `RoomManager` singleton. -/
structure RoomManager where
  rooms : List (Str × Room)
deriving Repr, DecidableEq

/-- The registry at process start. -/
def RoomManager.empty : RoomManager := ⟨[]⟩

/-- `RoomManager.getRoom`. -/
def RoomManager.getRoom (rm : RoomManager) (roomId : Str) : Option Room :=
  mapGet rm.rooms roomId

/-- `RoomManager.createRoom`: return the existing room unchanged if
present, otherwise store a fresh empty room with no host. -/
def RoomManager.createRoom (rm : RoomManager) (roomId : Str) (now : Nat) :
    Room × RoomManager :=
  match mapGet rm.rooms roomId with
  | some room => (room, rm)
  | none =>
    let room : Room := ⟨roomId, [], none, now⟩
    (room, ⟨mapSet rm.rooms roomId room⟩)

/-- `User ${userData.userId.substring(0, 4)}` — the defaulted display name. -/
def defaultName (userId : Str) : Str := S "User " ++ userId.take 4

/-- Result of `RoomManager.addUser`. -/
inductive AddRes where
  | err (message : String)
  | ok (room : Room) (user : User) (isHost : Bool)
deriving Repr, DecidableEq

/-- `RoomManager.addUser`: capacity check, duplicate check, insertion,
first-member-becomes-host rule. -/
def RoomManager.addUser (rm : RoomManager) (roomId sid : Str) (ud : UserData)
    (now : Nat) : AddRes × RoomManager :=
  match rm.getRoom roomId with
  | none => (.err "Room not found", rm)
  | some room =>
    if 2 ≤ room.users.length then (.err "Room is full", rm)
    else if mapHas room.users sid then (.err "User already in room", rm)
    else
      let name := match ud.name with
        | some n => if n = [] then defaultName ud.userId else n
        | none => defaultName ud.userId
      let user : User := ⟨sid, ud.userId, name, now⟩
      let users' := mapSet room.users sid user
      let hostId' := if room.hostId = none ∧ users'.length = 1 then some sid
        else room.hostId
      let room' : Room := { room with users := users', hostId := hostId' }
      (.ok room' user (hostId' == some sid), ⟨mapSet rm.rooms roomId room'⟩)

/-- Result of `RoomManager.removeUser`. -/
inductive RemRes where
  | err (message : String)
  | ok (room : Room) (user : User) (wasHost : Bool) (newHostId : Option Str)
deriving Repr, DecidableEq

/-- `RoomManager.removeUser`: removal, first-remaining-member host
succession, empty-room deletion. -/
def RoomManager.removeUser (rm : RoomManager) (roomId sid : Str) :
    RemRes × RoomManager :=
  match rm.getRoom roomId with
  | none => (.err "Room not found", rm)
  | some room =>
    match mapGet room.users sid with
    | none => (.err "User not in room", rm)
    | some user =>
      let wasHost := room.hostId == some sid
      let users' := mapDelete room.users sid
      let newHostId : Option Str :=
        if wasHost ∧ 0 < users'.length then (users'.head?).map (fun p => p.1)
        else none
      let hostId' : Option Str :=
        if wasHost ∧ 0 < users'.length then newHostId
        else if users'.length = 0 then none
        else room.hostId
      let room' : Room := { room with users := users', hostId := hostId' }
      let rooms' := if users'.length = 0 then mapDelete rm.rooms roomId
        else mapSet rm.rooms roomId room'
      (.ok room' user wasHost newHostId, ⟨rooms'⟩)

/-- `RoomManager.getOtherUsers`: members of the room except `sid`. -/
def RoomManager.getOtherUsers (rm : RoomManager) (roomId sid : Str) : List User :=
  match rm.getRoom roomId with
  | none => []
  | some room => (room.users.map (fun p => p.2)).filter (fun u => !(u.socketId == sid))

/-- `RoomManager.setHost`: explicit host reassignment to a current member. -/
def RoomManager.setHost (rm : RoomManager) (roomId sid : Str) :
    Bool × RoomManager :=
  match rm.getRoom roomId with
  | none => (false, rm)
  | some room =>
    if mapHas room.users sid then
      (true, ⟨mapSet rm.rooms roomId { room with hostId := some sid }⟩)
    else (false, rm)

/-- `RoomManager.getUser`. -/
def RoomManager.getUser (rm : RoomManager) (roomId sid : Str) : Option User :=
  match rm.getRoom roomId with
  | none => none
  | some room => mapGet room.users sid

/-! ## Signaling relay (`socket.js`)

Each emitted socket message is recorded with its recipient socket id.
`socket.to(room)` fans out to the room's members except the sender,
`io.to(room)` to all members, `socket.to(sid)`/`io.to(sid)` to that
socket; room membership of the underlying socket.io rooms mirrors the
registry (sockets `join`/`leave` exactly when `addUser`/`removeUser`
succeed), so recipients are computed from the registry. -/

/-- An SDP payload (`{type, sdp}`); empty fields model falsy fields. -/
structure Sdp where
  kind : String
  sdp : String
deriving Repr, DecidableEq

/-- `offer`/`answer` payload well-formedness as checked by the handlers. -/
def sdpOk (p : Option Sdp) : Bool :=
  match p with
  | none => false
  | some s => !(s.kind == "") && !(s.sdp == "")

/-- An ICE candidate payload; the empty `candidate` field models a falsy one. -/
structure Ice where
  candidate : String
deriving Repr, DecidableEq

/-- A message emitted by the server, tagged with its recipient socket. -/
inductive OutMsg where
  | errMsg (dst : Str) (message : String)
  | roomJoined (dst : Str) (roomId userId : Str) (isHost : Bool)
      (otherUsers : List (Str × Str))
  | peerJoined (dst : Str) (userId name sid : Str)
  | createOffer (dst : Str) (targetSocketId targetUserId : Str)
  | peerLeft (dst : Str) (userId sid : Str)
  | hostChangedMsg (dst : Str) (hostUserId hostName sid : Str)
  | offerFwd (dst : Str) (offer : Sdp) (fromSocketId : Str) (fromUserId : Option Str)
  | answerFwd (dst : Str) (answer : Sdp) (fromSocketId : Str) (fromUserId : Option Str)
  | iceFwd (dst : Str) (candidate : Ice) (fromSocketId : Str)
deriving Repr, DecidableEq

/-- `socket.to(targetSid)`: unicast that never echoes to the sender. -/
def unicast (sender dst : Str) (msg : OutMsg) : List OutMsg :=
  if dst == sender then [] else [msg]

/-- `handleLeaveRoom` in `socket.js`: remove the member, tell the
remaining peer, announce the successor host when the host left. -/
def handleLeaveRoom (rm : RoomManager) (sid roomId : Str) :
    RoomManager × List OutMsg :=
  match rm.removeUser roomId sid with
  | (.err _, rm') => (rm', [])
  | (.ok _ user wasHost newHostId, rm') =>
    let otherSids : List Str := match rm'.getRoom roomId with
      | none => []
      | some room => (room.users.map (fun p => p.1)).filter (fun k => !(k == sid))
    let leftMsgs := otherSids.map (fun k => OutMsg.peerLeft k user.userId sid)
    let hostMsgs := match newHostId with
      | some nh =>
        if wasHost then
          match rm'.getUser roomId nh with
          | some newHost =>
            let allSids : List Str := match rm'.getRoom roomId with
              | none => []
              | some room => room.users.map (fun p => p.1)
            allSids.map (fun k => OutMsg.hostChangedMsg k newHost.userId newHost.name nh)
          | none => []
        else []
      | none => []
    (rm', leftMsgs ++ hostMsgs)

/-- What a handler leaves behind: the registry, the socket's
`currentRoomId` closure variable, and the emitted messages. -/
structure HandlerOut where
  rm : RoomManager
  cur : Option Str
  out : List OutMsg
deriving Repr, DecidableEq

/-- `name ? sanitizeString(name, 50) : undefined` in the join handler. -/
def sanitizedNameOf (name : Option Str) : Option Str :=
  match name with
  | some n => if n = [] then none else some (sanitizeString n 50)
  | none => none

/-- The `join-room` handler: validate, leave the previous room when the
(raw) ids differ, create the room under the raw id if absent, then add
the member under the normalized id and fan out the notifications. -/
def joinRoom (rm : RoomManager) (cur : Option Str) (sid roomId userId : Str)
    (name : Option Str) (now : Nat) : HandlerOut :=
  if !validateRoomId roomId then ⟨rm, cur, [.errMsg sid "Invalid roomId format"]⟩
  else if !validateUserId userId then ⟨rm, cur, [.errMsg sid "Invalid userId format"]⟩
  else
    let sanitizedName : Option Str := sanitizedNameOf name
    let (rm1, leaveMsgs) := match cur with
      | some cr => if !(cr == roomId) then handleLeaveRoom rm sid cr else (rm, [])
      | none => (rm, [])
    let rm2 := if (rm1.getRoom roomId).isNone then (rm1.createRoom roomId now).2 else rm1
    let nid := normId roomId
    match rm2.addUser nid sid ⟨trimStr userId, sanitizedName⟩ now with
    | (.err m, rm3) => ⟨rm3, cur, leaveMsgs ++ [.errMsg sid m]⟩
    | (.ok _ user isHost, rm3) =>
      let others := rm3.getOtherUsers nid sid
      let joined := OutMsg.roomJoined sid nid user.userId isHost
        (others.map (fun u => (u.userId, u.name)))
      let peerMsgs := match others with
        | [] => []
        | existing :: _ =>
          (others.map (fun u => OutMsg.peerJoined u.socketId user.userId user.name sid))
          ++ [OutMsg.createOffer existing.socketId sid user.userId]
      ⟨rm3, some nid, leaveMsgs ++ [joined] ++ peerMsgs⟩

/-- The `offer` handler. -/
def offerHandler (rm : RoomManager) (sid : Str) (offer : Option Sdp)
    (roomId : Str) (target : Option Str) : RoomManager × List OutMsg :=
  if !sdpOk offer then (rm, [.errMsg sid "Invalid offer format"])
  else if !validateRoomId roomId then (rm, [.errMsg sid "Invalid roomId format"])
  else
    let nid := normId roomId
    match rm.getRoom nid with
    | none => (rm, [.errMsg sid "Not in room"])
    | some room =>
      if !mapHas room.users sid then (rm, [.errMsg sid "Not in room"])
      else
        let payload := offer.getD ⟨"", ""⟩
        let fromUid := (mapGet room.users sid).map (fun u => u.userId)
        match target with
        | some t => (rm, unicast sid t (.offerFwd t payload sid fromUid))
        | none =>
          let otherSids := (room.users.map (fun p => p.1)).filter (fun k => !(k == sid))
          (rm, otherSids.map (fun k => OutMsg.offerFwd k payload sid fromUid))

/-- The `answer` handler (a target socket id is mandatory here). -/
def answerHandler (rm : RoomManager) (sid : Str) (answer : Option Sdp)
    (roomId : Str) (target : Option Str) : RoomManager × List OutMsg :=
  if !sdpOk answer then (rm, [.errMsg sid "Invalid answer format"])
  else if !validateRoomId roomId then (rm, [.errMsg sid "Invalid roomId format"])
  else match target with
  | none => (rm, [.errMsg sid "Invalid targetSocketId"])
  | some t =>
    let nid := normId roomId
    match rm.getRoom nid with
    | none => (rm, [.errMsg sid "Not in room"])
    | some room =>
      if !mapHas room.users sid then (rm, [.errMsg sid "Not in room"])
      else
        let payload := answer.getD ⟨"", ""⟩
        let fromUid := (mapGet room.users sid).map (fun u => u.userId)
        (rm, unicast sid t (.answerFwd t payload sid fromUid))

/-- The `ice-candidate` handler: every malformed input is dropped with
no reply; a valid candidate is relayed to the target or the room. -/
def iceHandler (rm : RoomManager) (sid : Str) (candidate : Option Ice)
    (roomId : Str) (target : Option Str) : RoomManager × List OutMsg :=
  match candidate with
  | none => (rm, [])
  | some c =>
    if roomId = [] then (rm, [])
    else if !validateRoomId roomId then (rm, [])
    else
      let nid := normId roomId
      match rm.getRoom nid with
      | none => (rm, [])
      | some room =>
        if !mapHas room.users sid then (rm, [])
        else if c.candidate == "" then (rm, [])
        else match target with
        | some t => (rm, unicast sid t (.iceFwd t c sid))
        | none =>
          let otherSids := (room.users.map (fun p => p.1)).filter (fun k => !(k == sid))
          (rm, otherSids.map (fun k => OutMsg.iceFwd k c sid))

/-- The `host-changed` handler: a member claims host status and every
member of the room (the requester included) is notified. -/
def hostChangedHandler (rm : RoomManager) (sid roomId : Str) :
    RoomManager × List OutMsg :=
  if !validateRoomId roomId then (rm, [.errMsg sid "Invalid roomId format"])
  else
    let nid := normId roomId
    match rm.getRoom nid with
    | none => (rm, [.errMsg sid "Not in room"])
    | some room =>
      if !mapHas room.users sid then (rm, [.errMsg sid "Not in room"])
      else
        match rm.setHost nid sid with
        | (true, rm') =>
          match rm'.getUser nid sid with
          | some newHost =>
            let allSids : List Str := match rm'.getRoom nid with
              | none => []
              | some room' => room'.users.map (fun p => p.1)
            (rm', allSids.map
              (fun k => OutMsg.hostChangedMsg k newHost.userId newHost.name sid))
          | none => (rm', [])
        | (false, rm') => (rm', [])

/-! ## Operation sequences over the registry -/

/-- One invocation of a mutating `RoomManager` method. -/
inductive RMOp where
  | create (roomId : Str) (now : Nat)
  | add (roomId sid : Str) (ud : UserData) (now : Nat)
  | remove (roomId sid : Str)
  | host (roomId sid : Str)
deriving Repr, DecidableEq

/-- Apply one registry operation (results are discarded, state kept). -/
def applyRMOp (rm : RoomManager) : RMOp → RoomManager
  | .create roomId now => (rm.createRoom roomId now).2
  | .add roomId sid ud now => (rm.addUser roomId sid ud now).2
  | .remove roomId sid => (rm.removeUser roomId sid).2
  | .host roomId sid => (rm.setHost roomId sid).2

/-- Run a sequence of registry operations from the empty registry. -/
def runRMOps (ops : List RMOp) : RoomManager :=
  ops.foldl applyRMOp RoomManager.empty

/-! ## Server state over socket events

Each connection's `currentRoomId` closure variable is kept in a map from
socket id; a missing entry models `null`. -/

/-- Registry plus all per-socket `currentRoomId` variables. -/
structure ServerState where
  rm : RoomManager
  cur : List (Str × Str)
deriving Repr, DecidableEq

/-- The server at process start. -/
def ServerState.init : ServerState := ⟨RoomManager.empty, []⟩

/-- A socket event that can change membership or host state. -/
inductive SEvent where
  | join (sid roomId userId : Str) (name : Option Str) (now : Nat)
  | leaveRoom (sid : Str)
  | disconnect (sid : Str)
  | hostChange (sid roomId : Str)
deriving Repr, DecidableEq

/-- Store a handler's resulting `currentRoomId` back into the state. -/
def setCur (cur : List (Str × Str)) (sid : Str) : Option Str → List (Str × Str)
  | some c => mapSet cur sid c
  | none => mapDelete cur sid

/-- Process one socket event (emitted messages paired with new state). -/
def stepServer (st : ServerState) : SEvent → ServerState × List OutMsg
  | .join sid roomId userId name now =>
    let r := joinRoom st.rm (mapGet st.cur sid) sid roomId userId name now
    (⟨r.rm, setCur st.cur sid r.cur⟩, r.out)
  | .leaveRoom sid =>
    match mapGet st.cur sid with
    | some cr =>
      let (rm', out) := handleLeaveRoom st.rm sid cr
      (⟨rm', mapDelete st.cur sid⟩, out)
    | none => (st, [])
  | .disconnect sid =>
    match mapGet st.cur sid with
    | some cr =>
      let (rm', out) := handleLeaveRoom st.rm sid cr
      (⟨rm', st.cur⟩, out)
    | none => (st, [])
  | .hostChange sid roomId =>
    let (rm', out) := hostChangedHandler st.rm sid roomId
    (⟨rm', st.cur⟩, out)

/-- Run a sequence of socket events from the initial server state. -/
def runServer (evs : List SEvent) : ServerState :=
  evs.foldl (fun st e => (stepServer st e).1) ServerState.init

/-! ## Negotiation coordinator (`useWebRTC.ts`)

The browser `RTCPeerConnection` is modelled by its signaling state and
remote description; `applied` records the calls made to
`pc.addIceCandidate` once a remote description exists, in order. The
browser accepts `setRemoteDescription(answer)` only in
`have-local-offer` and `setRemoteDescription(offer)` only in `stable` or
`have-remote-offer`; elsewhere the call throws and the surrounding
`catch` in `useWebRTC.ts` leaves the queue untouched. -/

/-- `RTCPeerConnection.signalingState` (reachable fragment). -/
inductive SigState where
  | stable
  | haveLocalOffer
  | haveRemoteOffer
deriving Repr, DecidableEq

/-- Per-connection negotiation state held by the hook's refs. -/
structure PeerState where
  pcInit : Bool
  remoteDesc : Option Sdp
  sigState : SigState
  pending : List Ice
  applied : List Ice
deriving Repr, DecidableEq

/-- The state right after `initializePeerConnection`. -/
def PeerState.fresh : PeerState := ⟨true, none, .stable, [], []⟩

/-- `addIceCandidate` in `useWebRTC.ts`: queue without a peer
connection, drop a falsy candidate, apply when a remote description is
set, queue otherwise. -/
def addIceCandidate (st : PeerState) (c : Ice) : PeerState :=
  if !st.pcInit then { st with pending := st.pending ++ [c] }
  else if c.candidate == "" then st
  else if st.remoteDesc.isSome then { st with applied := st.applied ++ [c] }
  else { st with pending := st.pending ++ [c] }

/-- `handleAnswer` in `useWebRTC.ts`: validate, set the remote
description (succeeds only in `have-local-offer`), then apply every
pending candidate in order and clear the queue. -/
def handleAnswer (st : PeerState) (answer : Sdp) : PeerState :=
  if !st.pcInit then st
  else if answer.kind == "" || answer.sdp == "" then st
  else if st.sigState = .haveLocalOffer then
    { st with
        remoteDesc := some answer
        sigState := SigState.stable
        applied := st.applied ++ st.pending
        pending := [] }
  else st

/-- `createAnswer` in `useWebRTC.ts`: validate, set the received offer
as remote description (allowed in `stable` or `have-remote-offer`),
answer, then drain the pending queue in order. -/
def createAnswer (st : PeerState) (offer : Sdp) : PeerState :=
  if !st.pcInit then st
  else if offer.kind == "" || offer.sdp == "" then st
  else if st.sigState = .stable ∨ st.sigState = .haveRemoteOffer then
    { st with
        remoteDesc := some offer
        sigState := SigState.stable
        applied := st.applied ++ st.pending
        pending := [] }
  else st

/-- `createOffer` in `useWebRTC.ts`: suppressed outside `stable`,
otherwise a local description is set. -/
def createOfferStep (st : PeerState) : PeerState :=
  if !st.pcInit then st
  else if st.sigState = .haveLocalOffer ∨ st.sigState = .haveRemoteOffer then st
  else { st with sigState := SigState.haveLocalOffer }

/-- An event observed by one side's negotiation coordinator. -/
inductive PEvent where
  | ice (c : Ice)
  | answer (a : Sdp)
  | recvOffer (o : Sdp)
  | makeOffer
deriving Repr, DecidableEq

/-- Advance the negotiation state by one event. -/
def stepPeer (st : PeerState) : PEvent → PeerState
  | .ice c => addIceCandidate st c
  | .answer a => handleAnswer st a
  | .recvOffer o => createAnswer st o
  | .makeOffer => createOfferStep st

/-- Run the coordinator from a freshly initialized connection. -/
def runPeer (evs : List PEvent) : PeerState :=
  evs.foldl stepPeer PeerState.fresh

/-- The well-formed candidates a run receives, in arrival order. -/
def iceArrivals (evs : List PEvent) : List Ice :=
  evs.filterMap (fun e => match e with
    | .ice c => if c.candidate == "" then none else some c
    | _ => none)

/-! ## Invariants stated about the model -/

/-- The per-room invariant: at most two members; an empty room has no
host; a non-empty room's host is one of its current members. -/
def roomInv (r : Room) : Prop :=
  r.users.length ≤ 2 ∧
  (r.users = [] → r.hostId = none) ∧
  (r.users ≠ [] → ∃ h, r.hostId = some h ∧ mapHas r.users h = true)

/-- Every room of the registry satisfies `roomInv`. -/
def rmInv (rm : RoomManager) : Prop := ∀ p ∈ rm.rooms, roomInv p.2

/-- Runs from a fresh connection keep the peer connection initialized
and an empty queue whenever a remote description exists. -/
def peerGood (st : PeerState) : Prop :=
  st.pcInit = true ∧ (st.remoteDesc.isSome = true → st.pending = [])

/-- Whether `sid` is a member of the room. -/
def memberOf (room : Room) (sid : Str) : Bool := mapHas room.users sid

/-- The server-state well-formedness the socket handlers maintain: a
room holding a connection is the connection's tracked current room, the
tracked current-room ids are normal forms, and registry keys are
unique. -/
def WF (st : ServerState) : Prop :=
  (∀ sid k room, (k, room) ∈ st.rm.rooms → memberOf room sid = true →
    mapGet st.cur sid = some k) ∧
  (∀ sid k, mapGet st.cur sid = some k → ∃ s, k = normId s) ∧
  (st.rm.rooms.map (fun p => p.1)).Nodup

/-! ## Concrete states used by the witnesses -/

/-- A member record for connection `s1`. -/
def aliceW : User := ⟨S "s1", S "alice", S "alice", 1⟩

/-- A member record for connection `s2`. -/
def bobW : User := ⟨S "s2", S "bob", S "bob", 2⟩

/-- A full room (two members, `s1` hosting). -/
def roomW : Room := ⟨S "ROOM1", [(S "s1", aliceW), (S "s2", bobW)], some (S "s1"), 0⟩

/-- A registry holding only `roomW`. -/
def rmW : RoomManager := ⟨[(S "ROOM1", roomW)]⟩

/-- A one-member room (`s1` hosting). -/
def roomW1 : Room := ⟨S "ROOM1", [(S "s1", aliceW)], some (S "s1"), 0⟩

/-- A registry holding only `roomW1`. -/
def rmW1 : RoomManager := ⟨[(S "ROOM1", roomW1)]⟩

/-! ## Association-map lemmas -/

theorem mapGet_nil {α : Type} (k : Str) : mapGet ([] : List (Str × α)) k = none := rfl

theorem mapGet_cons {α : Type} (p : Str × α) (t : List (Str × α)) (k : Str) :
    mapGet (p :: t) k = if p.1 = k then some p.2 else mapGet t k := by
  by_cases h : p.1 = k <;> simp [mapGet, List.find?_cons, h]

theorem mapGet_append {α : Type} (m₁ m₂ : List (Str × α)) (k : Str) :
    mapGet (m₁ ++ m₂) k =
      match mapGet m₁ k with
      | some v => some v
      | none => mapGet m₂ k := by
  induction m₁ with
  | nil => simp [mapGet_nil]
  | cons p t ih =>
    by_cases h : p.1 = k <;> simp [mapGet_cons, h, ih]

theorem mapSet_of_not_has {α : Type} (m : List (Str × α)) (k : Str) (v : α)
    (h : mapHas m k = false) : mapSet m k v = m ++ [(k, v)] := by
  induction m with
  | nil => rfl
  | cons p t ih =>
    by_cases hp : p.1 = k
    · simp [mapHas, mapGet_cons, hp] at h
    · have ht : mapHas t k = false := by
        simpa [mapHas, mapGet_cons, hp] using h
      simp [mapSet, hp, ih ht]

theorem mapGet_mapSet_self {α : Type} (m : List (Str × α)) (k : Str) (v : α) :
    mapGet (mapSet m k v) k = some v := by
  induction m with
  | nil => simp [mapSet, mapGet_cons]
  | cons p t ih =>
    by_cases hp : p.1 = k <;> simp [mapSet, hp, mapGet_cons, ih]

theorem mapGet_mapSet_ne {α : Type} (m : List (Str × α)) (k k' : Str) (v : α)
    (h : k' ≠ k) : mapGet (mapSet m k v) k' = mapGet m k' := by
  have hk : ¬ (k = k') := fun e => h e.symm
  induction m with
  | nil => simp [mapSet, mapGet_cons, hk]
  | cons p t ih =>
    by_cases hp : p.1 = k
    · have hpk : ¬ (p.1 = k') := by rw [hp]; exact hk
      simp [mapSet, hp, mapGet_cons, hpk, hk]
    · simp [mapSet, hp, mapGet_cons, ih]

theorem mapGet_none_of_not_has {α : Type} {m : List (Str × α)} {k : Str}
    (h : mapHas m k = false) : mapGet m k = none := by
  cases hm : mapGet m k with
  | none => rfl
  | some v => simp [mapHas, hm] at h

theorem mapGet_mapDelete_self {α : Type} (m : List (Str × α)) (k : Str) :
    mapGet (mapDelete m k) k = none := by
  induction m with
  | nil => rfl
  | cons p t ih =>
    by_cases hp : p.1 = k
    · simpa [mapDelete, List.filter_cons, hp] using ih
    · simpa [mapDelete, List.filter_cons, hp, mapGet_cons] using ih

theorem mapGet_mapDelete_ne {α : Type} (m : List (Str × α)) (k k' : Str)
    (h : k' ≠ k) : mapGet (mapDelete m k) k' = mapGet m k' := by
  have hk : ¬ (k = k') := fun e => h e.symm
  induction m with
  | nil => rfl
  | cons p t ih =>
    by_cases hp : p.1 = k
    · have hpk : ¬ (p.1 = k') := by rw [hp]; exact hk
      simpa [mapDelete, List.filter_cons, hp, mapGet_cons, hpk, hk] using ih
    · by_cases hp' : p.1 = k'
      · simp [mapDelete, List.filter_cons, hp, mapGet_cons, hp', h, hk]
      · simpa [mapDelete, List.filter_cons, hp, mapGet_cons, hp', h, hk] using ih

theorem mem_mapSet {α : Type} {m : List (Str × α)} {k : Str} {v : α}
    {p : Str × α} (h : p ∈ mapSet m k v) : p ∈ m ∨ p = (k, v) := by
  induction m with
  | nil =>
    simp only [mapSet] at h
    exact Or.inr (List.mem_singleton.mp h)
  | cons q t ih =>
    by_cases hq : q.1 = k
    · simp only [mapSet, hq, beq_self_eq_true, if_true] at h
      rcases List.mem_cons.mp h with he | ht
      · exact Or.inr he
      · exact Or.inl (List.mem_cons_of_mem _ ht)
    · simp only [mapSet, hq] at h
      rcases List.mem_cons.mp (by simpa [hq] using h) with he | ht
      · exact Or.inl (he ▸ List.mem_cons_self _ _)
      · rcases ih ht with hm | he
        · exact Or.inl (List.mem_cons_of_mem _ hm)
        · exact Or.inr he

theorem mem_mapDelete {α : Type} {m : List (Str × α)} {k : Str}
    {p : Str × α} (h : p ∈ mapDelete m k) : p ∈ m :=
  List.mem_of_mem_filter h

theorem mapGet_mem {α : Type} {m : List (Str × α)} {k : Str} {v : α}
    (h : mapGet m k = some v) : (k, v) ∈ m := by
  induction m with
  | nil => simp [mapGet_nil] at h
  | cons p t ih =>
    by_cases hp : p.1 = k
    · simp only [mapGet_cons, hp, if_true] at h
      obtain ⟨a, b⟩ := p
      obtain rfl : a = k := hp
      obtain rfl : b = v := by simpa using h
      exact List.mem_cons_self _ _
    · simp only [mapGet_cons, hp, if_false] at h
      exact List.mem_cons_of_mem _ (ih h)

theorem mapHas_of_mapGet {α : Type} {m : List (Str × α)} {k : Str} {v : α}
    (h : mapGet m k = some v) : mapHas m k = true := by
  simp [mapHas, h]

theorem length_mapSet_not_has {α : Type} (m : List (Str × α)) (k : Str) (v : α)
    (h : mapHas m k = false) : (mapSet m k v).length = m.length + 1 := by
  rw [mapSet_of_not_has m k v h]
  simp

theorem length_mapDelete_le {α : Type} (m : List (Str × α)) (k : Str) :
    (mapDelete m k).length ≤ m.length :=
  List.length_filter_le _ m

/-! ## Registry invariants (capacity and host) -/

theorem rmInv_empty : rmInv RoomManager.empty := by
  intro p hp
  simp [RoomManager.empty] at hp

theorem rmInv_mapSet {rm : RoomManager} {k : Str} {r : Room}
    (h : rmInv rm) (hr : roomInv r) : rmInv ⟨mapSet rm.rooms k r⟩ := by
  intro p hp
  rcases mem_mapSet hp with hm | he
  · exact h p hm
  · rw [he]
    exact hr

theorem rmInv_mapDelete {rm : RoomManager} {k : Str}
    (h : rmInv rm) : rmInv ⟨mapDelete rm.rooms k⟩ :=
  fun p hp => h p (mem_mapDelete hp)

theorem roomInv_of_getRoom {rm : RoomManager} {roomId : Str} {room : Room}
    (h : rmInv rm) (hg : rm.getRoom roomId = some room) : roomInv room :=
  h (roomId, room) (mapGet_mem hg)

theorem nonempty_of_mapHas {α : Type} {m : List (Str × α)} {k : Str}
    (h : mapHas m k = true) : m ≠ [] := by
  intro he
  subst he
  simp [mapHas, mapGet] at h

/-- `createRoom` preserves the invariant. -/
theorem rmInv_createRoom (rm : RoomManager) (roomId : Str) (now : Nat)
    (h : rmInv rm) : rmInv (rm.createRoom roomId now).2 := by
  unfold RoomManager.createRoom
  cases hg : mapGet rm.rooms roomId with
  | some room => exact h
  | none =>
    refine rmInv_mapSet h ?_
    refine ⟨by simp, fun _ => rfl, fun hne => absurd rfl hne⟩

/-- `addUser` preserves the invariant. -/
theorem rmInv_addUser (rm : RoomManager) (roomId sid : Str) (ud : UserData)
    (now : Nat) (h : rmInv rm) : rmInv (rm.addUser roomId sid ud now).2 := by
  unfold RoomManager.addUser
  cases hg : rm.getRoom roomId with
  | none => exact h
  | some room =>
    have hr := roomInv_of_getRoom h hg
    by_cases hfull : 2 ≤ room.users.length
    · simpa [hfull] using h
    · by_cases hmem : mapHas room.users sid
      · simpa [hfull, hmem] using h
      · have hmem' : mapHas room.users sid = false := by
          simpa using hmem
        simp only [hfull, if_false, hmem', Bool.false_eq_true]
        refine rmInv_mapSet h ?_
        set user : User := ⟨sid, ud.userId,
          match ud.name with
          | some n => if n = [] then defaultName ud.userId else n
          | none => defaultName ud.userId, now⟩ with huser
        have hlen : (mapSet room.users sid user).length = room.users.length + 1 :=
          length_mapSet_not_has _ _ _ hmem'
        have hne : mapSet room.users sid user ≠ [] := by
          intro he
          rw [he] at hlen
          simp at hlen
        constructor
        · rw [hlen]; omega
        constructor
        · intro he
          exact absurd he hne
        · intro _
          by_cases hc : room.hostId = none ∧ (mapSet room.users sid user).length = 1
          · refine ⟨sid, by simp [hc], ?_⟩
            simp [mapHas, mapGet_mapSet_self]
          · have husers : room.users ≠ [] := by
              intro he
              apply hc
              constructor
              · exact hr.2.1 he
              · rw [hlen, he]
                rfl
            obtain ⟨hh, hhost, hhas⟩ := hr.2.2 husers
            refine ⟨hh, by simp [hc, hhost], ?_⟩
            have hhs : hh ≠ sid := by
              intro he
              rw [he] at hhas
              rw [hhas] at hmem'
              exact Bool.true_eq_false.mp hmem'
            simpa [mapHas, mapGet_mapSet_ne _ _ _ _ hhs] using hhas

/-- `removeUser` preserves the invariant. -/
theorem rmInv_removeUser (rm : RoomManager) (roomId sid : Str)
    (h : rmInv rm) : rmInv (rm.removeUser roomId sid).2 := by
  unfold RoomManager.removeUser
  cases hg : rm.getRoom roomId with
  | none => exact h
  | some room =>
    dsimp only
    have hr := roomInv_of_getRoom h hg
    cases hu : mapGet room.users sid with
    | none => exact h
    | some user =>
      dsimp only
      by_cases hz : (mapDelete room.users sid).length = 0
      · simpa [hz] using rmInv_mapDelete h
      · simp only [hz, if_false]
        refine rmInv_mapSet h ?_
        have hne : mapDelete room.users sid ≠ [] := by
          intro he
          rw [he] at hz
          exact hz rfl
        have hlen : (mapDelete room.users sid).length ≤ 2 :=
          le_trans (length_mapDelete_le _ _) hr.1
        by_cases hwh : room.hostId == some sid
        · cases hcons : mapDelete room.users sid with
          | nil => exact absurd hcons hne
          | cons hd tl =>
            rw [hcons] at hlen
            refine ⟨hlen, fun he => absurd he (List.cons_ne_nil hd tl),
              fun _ => ⟨hd.1, ?_, ?_⟩⟩
            · simp [hwh]
            · simp [mapHas, mapGet_cons]
        · have husers : room.users ≠ [] := nonempty_of_mapHas (mapHas_of_mapGet hu)
          obtain ⟨hh, hhost, hhas⟩ := hr.2.2 husers
          have hhs : hh ≠ sid := by
            intro he
            rw [hhost, he] at hwh
            simp at hwh
          refine ⟨hlen, fun he => absurd he hne, fun _ => ⟨hh, ?_, ?_⟩⟩
          · simp only [hwh, false_and, if_false, hz]
            exact hhost
          · simpa [mapHas, mapGet_mapDelete_ne _ _ _ hhs] using hhas

/-- `setHost` preserves the invariant. -/
theorem rmInv_setHost (rm : RoomManager) (roomId sid : Str)
    (h : rmInv rm) : rmInv (rm.setHost roomId sid).2 := by
  unfold RoomManager.setHost
  cases hg : rm.getRoom roomId with
  | none => exact h
  | some room =>
    have hr := roomInv_of_getRoom h hg
    by_cases hmem : mapHas room.users sid
    · simp only [hmem, if_true]
      refine rmInv_mapSet h ?_
      have hne : room.users ≠ [] := nonempty_of_mapHas hmem
      exact ⟨hr.1, fun he => absurd he hne, fun _ => ⟨sid, rfl, hmem⟩⟩
    · simpa [hmem] using h

/-- Any operation sequence preserves the invariant. -/
theorem rmInv_applyRMOp (rm : RoomManager) (op : RMOp) (h : rmInv rm) :
    rmInv (applyRMOp rm op) := by
  cases op with
  | create roomId now => exact rmInv_createRoom rm roomId now h
  | add roomId sid ud now => exact rmInv_addUser rm roomId sid ud now h
  | remove roomId sid => exact rmInv_removeUser rm roomId sid h
  | host roomId sid => exact rmInv_setHost rm roomId sid h

theorem rmInv_runRMOps (ops : List RMOp) : rmInv (runRMOps ops) := by
  have hgen : ∀ rm, rmInv rm → rmInv (ops.foldl applyRMOp rm) := by
    induction ops with
    | nil => exact fun rm h => h
    | cons op t ih => exact fun rm h => ih _ (rmInv_applyRMOp rm op h)
  exact hgen RoomManager.empty rmInv_empty

/-! ## Claims -/

/-- C1: for every sequence of registry operations a session never holds
more than 2 members, and a join attempt on a session that already has 2
members returns the `Room is full` error and leaves the registry — its
membership, host and creation time included — unchanged. -/
theorem claim_C1 :
    (∀ ops : List RMOp, ∀ p ∈ (runRMOps ops).rooms, p.2.users.length ≤ 2) ∧
    (∀ (rm : RoomManager) (roomId sid : Str) (ud : UserData) (now : Nat)
      (room : Room), rm.getRoom roomId = some room → room.users.length = 2 →
      rm.addUser roomId sid ud now = (.err "Room is full", rm)) := by
  constructor
  · intro ops p hp
    exact (rmInv_runRMOps ops p hp).1
  · intro rm roomId sid ud now room hg hlen
    unfold RoomManager.addUser
    rw [hg]
    simp [hlen]

/-- C1 witness: the two-member room `roomW` rejects a third join and the
registry is untouched. -/
theorem claim_C1_witness :
    rmW.getRoom (S "ROOM1") = some roomW ∧ roomW.users.length = 2 ∧
    rmW.addUser (S "ROOM1") (S "s3") ⟨S "carol", none⟩ 5 =
      (.err "Room is full", rmW) :=
  ⟨by decide, by decide,
    claim_C1.2 rmW (S "ROOM1") (S "s3") ⟨S "carol", none⟩ 5 roomW
      (by decide) (by decide)⟩

/-- C2: every session reachable by a sequence of create, join, leave and
setHost operations has a host who is a current member whenever it is
non-empty, and no host when empty. -/
theorem claim_C2 : ∀ (ops : List RMOp), ∀ p ∈ (runRMOps ops).rooms,
    (p.2.users ≠ [] → ∃ h, p.2.hostId = some h ∧ mapHas p.2.users h = true) ∧
    (p.2.users = [] → p.2.hostId = none) := by
  intro ops p hp
  have hinv := rmInv_runRMOps ops p hp
  exact ⟨hinv.2.2, hinv.2.1⟩

/-- C2 witness: after a create and one join, the single room's host is
its only member. -/
theorem claim_C2_witness :
    (S "ROOM1",
      Room.mk (S "ROOM1") [(S "s1", ⟨S "s1", S "alice", S "User alic", 1⟩)]
        (some (S "s1")) 0) ∈
      (runRMOps [.create (S "ROOM1") 0,
        .add (S "ROOM1") (S "s1") ⟨S "alice", none⟩ 1]).rooms ∧
    ((S "s1", (⟨S "s1", S "alice", S "User alic", 1⟩ : User)) :: [] ≠ [] →
      ∃ h, some (S "s1") = some h ∧
        mapHas [(S "s1", (⟨S "s1", S "alice", S "User alic", 1⟩ : User))] h = true) :=
  ⟨by decide,
    (claim_C2 [.create (S "ROOM1") 0, .add (S "ROOM1") (S "s1") ⟨S "alice", none⟩ 1]
      (S "ROOM1",
        Room.mk (S "ROOM1") [(S "s1", ⟨S "s1", S "alice", S "User alic", 1⟩)]
          (some (S "s1")) 0) (by decide)).1⟩

/-- C4: when the host leaves a session with members remaining, the
earliest-joined remaining member (head of the insertion-ordered member
list) deterministically becomes host; when a leave empties the session,
the host is cleared and the session is deleted from the registry. -/
theorem claim_C4 :
    (∀ (rm : RoomManager) (roomId sid : Str) (room : Room) (u : User)
      (k2 : Str) (u2 : User) (rest : List (Str × User)),
      rm.getRoom roomId = some room →
      mapGet room.users sid = some u →
      room.hostId = some sid →
      mapDelete room.users sid = (k2, u2) :: rest →
      rm.removeUser roomId sid =
        (.ok { room with users := (k2, u2) :: rest, hostId := some k2 } u
          true (some k2),
         ⟨mapSet rm.rooms roomId
           { room with users := (k2, u2) :: rest, hostId := some k2 }⟩)) ∧
    (∀ (rm : RoomManager) (roomId sid : Str) (room : Room) (u : User),
      rm.getRoom roomId = some room →
      mapGet room.users sid = some u →
      mapDelete room.users sid = [] →
      rm.removeUser roomId sid =
        (.ok { room with users := [], hostId := none } u
          (room.hostId == some sid) none,
         ⟨mapDelete rm.rooms roomId⟩) ∧
      (⟨mapDelete rm.rooms roomId⟩ : RoomManager).getRoom roomId = none) := by
  constructor
  · intro rm roomId sid room u k2 u2 rest hg hu hhost hdel
    unfold RoomManager.removeUser
    rw [hg]
    dsimp only
    rw [hu]
    dsimp only
    rw [hdel, hhost]
    simp
  · intro rm roomId sid room u hg hu hdel
    constructor
    · unfold RoomManager.removeUser
      rw [hg]
      dsimp only
      rw [hu]
      dsimp only
      rw [hdel]
      simp
    · exact mapGet_mapDelete_self rm.rooms roomId

/-- C4 witness: host `s1` of the two-member `roomW` leaves and `s2`
becomes host; the lone member of `roomW1` leaves and the room is
deleted with its host cleared. -/
theorem claim_C4_witness :
    rmW.removeUser (S "ROOM1") (S "s1") =
      (.ok { roomW with users := [(S "s2", bobW)], hostId := some (S "s2") }
        aliceW true (some (S "s2")),
       ⟨mapSet rmW.rooms (S "ROOM1")
         { roomW with users := [(S "s2", bobW)], hostId := some (S "s2") }⟩) ∧
    (rmW1.removeUser (S "ROOM1") (S "s1") =
      (.ok { roomW1 with users := [], hostId := none } aliceW
        (roomW1.hostId == some (S "s1")) none,
       ⟨mapDelete rmW1.rooms (S "ROOM1")⟩) ∧
     (⟨mapDelete rmW1.rooms (S "ROOM1")⟩ : RoomManager).getRoom (S "ROOM1") = none) :=
  ⟨claim_C4.1 rmW (S "ROOM1") (S "s1") roomW aliceW (S "s2") bobW []
      (by decide) (by decide) (by decide) (by decide),
   claim_C4.2 rmW1 (S "ROOM1") (S "s1") roomW1 aliceW
      (by decide) (by decide) (by decide)⟩

/-- C9: session creation is idempotent — creating an id that exists
returns the stored session with the registry unchanged, and creating an
absent id appends exactly one new empty, host-less session. -/
theorem claim_C9 :
    (∀ (rm : RoomManager) (roomId : Str) (now : Nat) (room : Room),
      rm.getRoom roomId = some room →
      rm.createRoom roomId now = (room, rm)) ∧
    (∀ (rm : RoomManager) (roomId : Str) (now : Nat),
      rm.getRoom roomId = none →
      rm.createRoom roomId now =
        (⟨roomId, [], none, now⟩,
         ⟨rm.rooms ++ [(roomId, ⟨roomId, [], none, now⟩)]⟩)) := by
  constructor
  · intro rm roomId now room hg
    unfold RoomManager.createRoom
    rw [show mapGet rm.rooms roomId = some room from hg]
  · intro rm roomId now hg
    have hhas : mapHas rm.rooms roomId = false := by
      simp [mapHas, show mapGet rm.rooms roomId = none from hg]
    unfold RoomManager.createRoom
    rw [show mapGet rm.rooms roomId = none from hg]
    dsimp only
    rw [mapSet_of_not_has _ _ _ hhas]

/-- C9 witness: re-creating `ROOM1` returns `roomW` unchanged, and
creating the absent `ROOM2` appends one empty host-less session. -/
theorem claim_C9_witness :
    rmW.createRoom (S "ROOM1") 9 = (roomW, rmW) ∧
    rmW.createRoom (S "ROOM2") 9 =
      (⟨S "ROOM2", [], none, 9⟩,
       ⟨rmW.rooms ++ [(S "ROOM2", ⟨S "ROOM2", [], none, 9⟩)]⟩) :=
  ⟨claim_C9.1 rmW (S "ROOM1") 9 roomW (by decide),
   claim_C9.2 rmW (S "ROOM2") 9 (by decide)⟩

/-- C3: the claim fails on the code. `join-room` calls
`getRoom`/`createRoom` with the raw id but `addUser` with the normalized
id, so the first join with the valid lower-case id `abc123` stores an
orphan room keyed `abc123` and fails with `Room not found`, while the
upper-case form succeeds; moreover after an `ABC123` join, a join spelt
`abc123` leaves two registry entries rather than one session. -/
theorem claim_C3 :
    validateRoomId (S "abc123") = true ∧
    normId (S "abc123") = S "ABC123" ∧
    joinRoom RoomManager.empty none (S "s1") (S "abc123") (S "alice1") none 0 =
      ⟨⟨[(S "abc123", ⟨S "abc123", [], none, 0⟩)]⟩, none,
        [.errMsg (S "s1") "Room not found"]⟩ ∧
    (joinRoom RoomManager.empty none (S "s1") (S "ABC123") (S "alice1") none 0).out =
      [.roomJoined (S "s1") (S "ABC123") (S "alice1") true []] ∧
    ((joinRoom (joinRoom RoomManager.empty none (S "s1") (S "ABC123")
        (S "alice1") none 0).rm none (S "s2") (S "abc123")
        (S "bobby1") none 1).rm.rooms.map (fun p => p.1)) =
      [S "ABC123", S "abc123"] := by
  decide

/-- C5: every malformed `offer`, `answer`, `join` or `host-changed`
message (bad payload shape, bad room or user id, missing target) draws
an `error` reply naming the problem and leaves the registry unchanged,
while every malformed `ice-candidate` message (missing candidate, falsy
candidate field, invalid room id, sender not in the room) is dropped
silently with no reply and no state change. -/
theorem claim_C5 :
    (∀ (rm : RoomManager) (sid : Str) (offer : Option Sdp) (roomId : Str)
      (target : Option Str), sdpOk offer = false →
      offerHandler rm sid offer roomId target =
        (rm, [.errMsg sid "Invalid offer format"])) ∧
    (∀ (rm : RoomManager) (sid : Str) (offer : Option Sdp) (roomId : Str)
      (target : Option Str), sdpOk offer = true → validateRoomId roomId = false →
      offerHandler rm sid offer roomId target =
        (rm, [.errMsg sid "Invalid roomId format"])) ∧
    (∀ (rm : RoomManager) (sid : Str) (answer : Option Sdp) (roomId : Str)
      (target : Option Str), sdpOk answer = false →
      answerHandler rm sid answer roomId target =
        (rm, [.errMsg sid "Invalid answer format"])) ∧
    (∀ (rm : RoomManager) (sid : Str) (answer : Option Sdp) (roomId : Str)
      (target : Option Str), sdpOk answer = true → validateRoomId roomId = false →
      answerHandler rm sid answer roomId target =
        (rm, [.errMsg sid "Invalid roomId format"])) ∧
    (∀ (rm : RoomManager) (sid : Str) (answer : Option Sdp) (roomId : Str),
      sdpOk answer = true → validateRoomId roomId = true →
      answerHandler rm sid answer roomId none =
        (rm, [.errMsg sid "Invalid targetSocketId"])) ∧
    (∀ (rm : RoomManager) (cur : Option Str) (sid roomId userId : Str)
      (name : Option Str) (now : Nat), validateRoomId roomId = false →
      joinRoom rm cur sid roomId userId name now =
        ⟨rm, cur, [.errMsg sid "Invalid roomId format"]⟩) ∧
    (∀ (rm : RoomManager) (cur : Option Str) (sid roomId userId : Str)
      (name : Option Str) (now : Nat), validateRoomId roomId = true →
      validateUserId userId = false →
      joinRoom rm cur sid roomId userId name now =
        ⟨rm, cur, [.errMsg sid "Invalid userId format"]⟩) ∧
    (∀ (rm : RoomManager) (sid roomId : Str), validateRoomId roomId = false →
      hostChangedHandler rm sid roomId =
        (rm, [.errMsg sid "Invalid roomId format"])) ∧
    (∀ (rm : RoomManager) (sid roomId : Str) (target : Option Str),
      iceHandler rm sid none roomId target = (rm, [])) ∧
    (∀ (rm : RoomManager) (sid : Str) (c : Ice) (roomId : Str)
      (target : Option Str), validateRoomId roomId = false →
      iceHandler rm sid (some c) roomId target = (rm, [])) ∧
    (∀ (rm : RoomManager) (sid : Str) (c : Ice) (roomId : Str)
      (target : Option Str), validateRoomId roomId = true →
      rm.getRoom (normId roomId) = none →
      iceHandler rm sid (some c) roomId target = (rm, [])) ∧
    (∀ (rm : RoomManager) (sid : Str) (c : Ice) (roomId : Str)
      (target : Option Str) (room : Room), validateRoomId roomId = true →
      rm.getRoom (normId roomId) = some room → mapHas room.users sid = false →
      iceHandler rm sid (some c) roomId target = (rm, [])) ∧
    (∀ (rm : RoomManager) (sid : Str) (c : Ice) (roomId : Str)
      (target : Option Str) (room : Room), c.candidate = "" →
      validateRoomId roomId = true →
      rm.getRoom (normId roomId) = some room → mapHas room.users sid = true →
      iceHandler rm sid (some c) roomId target = (rm, [])) := by
  have hvnil : validateRoomId [] = false := by decide
  refine ⟨?_, ?_, ?_, ?_, ?_, ?_, ?_, ?_, ?_, ?_, ?_, ?_, ?_⟩
  · intro rm sid offer roomId target h
    unfold offerHandler
    simp [h]
  · intro rm sid offer roomId target h hv
    unfold offerHandler
    simp [h, hv]
  · intro rm sid answer roomId target h
    unfold answerHandler
    simp [h]
  · intro rm sid answer roomId target h hv
    unfold answerHandler
    simp [h, hv]
  · intro rm sid answer roomId h hv
    unfold answerHandler
    simp [h, hv]
  · intro rm cur sid roomId userId name now hv
    unfold joinRoom
    simp [hv]
  · intro rm cur sid roomId userId name now hv hu
    unfold joinRoom
    simp [hv, hu]
  · intro rm sid roomId hv
    unfold hostChangedHandler
    simp [hv]
  · intro rm sid roomId target
    rfl
  · intro rm sid c roomId target hv
    unfold iceHandler
    by_cases hnil : roomId = []
    · simp [hnil]
    · simp [hnil, hv]
  · intro rm sid c roomId target hv hg
    have hnil : ¬ (roomId = []) := by
      intro he
      rw [he] at hv
      rw [hvnil] at hv
      exact Bool.false_ne_true hv
    unfold iceHandler
    simp [hnil, hv, hg]
  · intro rm sid c roomId target room hv hg hm
    have hnil : ¬ (roomId = []) := by
      intro he
      rw [he] at hv
      rw [hvnil] at hv
      exact Bool.false_ne_true hv
    unfold iceHandler
    simp [hnil, hv, hg, hm]
  · intro rm sid c roomId target room hc hv hg hm
    have hnil : ¬ (roomId = []) := by
      intro he
      rw [he] at hv
      rw [hvnil] at hv
      exact Bool.false_ne_true hv
    unfold iceHandler
    simp [hnil, hv, hg, hm, hc]

/-- C5 witness: a missing offer payload draws the format error with the
registry untouched, and a stranger's valid candidate for `ROOM1` is
dropped silently. -/
theorem claim_C5_witness :
    sdpOk none = false ∧
    offerHandler rmW (S "s1") none (S "ROOM1") none =
      (rmW, [.errMsg (S "s1") "Invalid offer format"]) ∧
    mapHas roomW.users (S "s9") = false ∧
    iceHandler rmW (S "s9") (some ⟨"c"⟩) (S "ROOM1") none = (rmW, []) :=
  ⟨rfl,
   claim_C5.1 rmW (S "s1") none (S "ROOM1") none rfl,
   by decide,
   (claim_C5.2.2.2.2.2.2.2.2.2.2.2).1 rmW (S "s9") ⟨"c"⟩ (S "ROOM1") none roomW
     (by decide) (by decide) (by decide)⟩

/-- Joining as the second member of a one-member room: the new member
is appended, the host stays, and the joiner is not host. -/
theorem addUser_second (rm : RoomManager) (roomId sid uid : Str)
    (sn : Option Str) (now : Nat) (room : Room) (psid : Str) (pu : User)
    (hg : rm.getRoom roomId = some room)
    (husers : room.users = [(psid, pu)])
    (hhost : room.hostId = some psid)
    (hne : psid ≠ sid) :
    rm.addUser roomId sid ⟨uid, sn⟩ now =
      (.ok { room with
          users := [(psid, pu), (sid, ⟨sid, uid,
            match sn with
            | some n => if n = [] then defaultName uid else n
            | none => defaultName uid, now⟩)]
          hostId := some psid }
        ⟨sid, uid,
          match sn with
          | some n => if n = [] then defaultName uid else n
          | none => defaultName uid, now⟩ false,
       ⟨mapSet rm.rooms roomId
         { room with
            users := [(psid, pu), (sid, ⟨sid, uid,
              match sn with
              | some n => if n = [] then defaultName uid else n
              | none => defaultName uid, now⟩)]
            hostId := some psid }⟩) := by
  unfold RoomManager.addUser
  rw [hg]
  dsimp only
  rw [if_neg (show ¬ 2 ≤ room.users.length by rw [husers]; simp)]
  have hhas : mapHas room.users sid = false := by
    rw [husers]
    simp [mapHas, mapGet_cons, mapGet_nil, fun e : psid = sid => hne e]
  rw [hhas]
  simp only [Bool.false_eq_true, if_false]
  have hset : mapSet room.users sid (⟨sid, uid,
      match sn with
      | some n => if n = [] then defaultName uid else n
      | none => defaultName uid, now⟩ : User) =
      [(psid, pu), (sid, ⟨sid, uid,
        match sn with
        | some n => if n = [] then defaultName uid else n
        | none => defaultName uid, now⟩)] := by
    rw [husers]
    simp [mapSet, fun e : psid = sid => hne e]
  rw [hset, hhost]
  simp [hne]

/-- In a two-member room just written to the registry, the members
other than the joiner are exactly the previously present peer. -/
theorem getOther_pair (rm : RoomManager) (roomId sid psid : Str)
    (pu u : User) (idv : Str) (hostv : Option Str) (cav : Nat)
    (hps : pu.socketId ≠ sid) (hu : u.socketId = sid) :
    RoomManager.getOtherUsers
      ⟨mapSet rm.rooms roomId ⟨idv, [(psid, pu), (sid, u)], hostv, cav⟩⟩
      roomId sid = [pu] := by
  unfold RoomManager.getOtherUsers
  rw [show (⟨mapSet rm.rooms roomId ⟨idv, [(psid, pu), (sid, u)], hostv, cav⟩⟩ :
      RoomManager).getRoom roomId =
      some ⟨idv, [(psid, pu), (sid, u)], hostv, cav⟩ from mapGet_mapSet_self _ _ _]
  simp [List.filter_cons, hps, hu]

/-- C7: a successful join into a session holding one member sends the
joiner `room-joined` with its host flag and the present peer, and sends
the existing peer both `peer-joined` and a `create-offer` instruction
naming the new joiner's connection id and user id. -/
theorem claim_C7 :
    ∀ (rm : RoomManager) (sid roomId userId : Str) (name : Option Str)
      (now : Nat) (room : Room) (psid : Str) (pu : User),
      validateRoomId roomId = true →
      validateUserId userId = true →
      normId roomId = roomId →
      rm.getRoom roomId = some room →
      room.users = [(psid, pu)] →
      room.hostId = some psid →
      pu.socketId = psid →
      psid ≠ sid →
      ∃ nm : Str,
        joinRoom rm none sid roomId userId name now =
          ⟨⟨mapSet rm.rooms roomId
              { room with
                  users := [(psid, pu), (sid, ⟨sid, trimStr userId, nm, now⟩)]
                  hostId := some psid }⟩,
            some roomId,
            [.roomJoined sid roomId (trimStr userId) false [(pu.userId, pu.name)],
             .peerJoined psid (trimStr userId) nm sid,
             .createOffer psid sid (trimStr userId)]⟩ := by
  intro rm sid roomId userId name now room psid pu hv hu hnorm hg husers hhost hps hne
  refine ⟨match sanitizedNameOf name with
    | some n => if n = [] then defaultName (trimStr userId) else n
    | none => defaultName (trimStr userId), ?_⟩
  have hps' : pu.socketId ≠ sid := by rw [hps]; exact hne
  unfold joinRoom
  rw [hv, hu]
  simp only [Bool.not_true, Bool.false_eq_true, if_false]
  rw [hnorm, show rm.getRoom roomId = some room from hg]
  simp only [Option.isNone_some, Bool.false_eq_true, if_false]
  rw [addUser_second rm roomId sid (trimStr userId) _ now room psid pu
    hg husers hhost hne]
  dsimp only
  set NM : Str := (match sanitizedNameOf name with
    | some n => if n = [] then defaultName (trimStr userId) else n
    | none => defaultName (trimStr userId)) with hNM
  rw [getOther_pair rm roomId sid psid pu ⟨sid, trimStr userId, NM, now⟩
    room.id (some psid) room.createdAt hps' rfl]
  dsimp only
  simp [hps]

/-- C7 witness: `s2` joins `roomW1` (held by `s1`): `s2` receives
`room-joined{isHost := false}` listing alice, `s1` receives
`peer-joined` and `create-offer` naming `s2`. -/
theorem claim_C7_witness :
    ∃ nm : Str,
      joinRoom rmW1 none (S "s2") (S "ROOM1") (S "bob") none 2 =
        ⟨⟨mapSet rmW1.rooms (S "ROOM1")
            { roomW1 with
              users := [(S "s1", aliceW), (S "s2", ⟨S "s2", trimStr (S "bob"), nm, 2⟩)]
              hostId := some (S "s1") }⟩,
          some (S "ROOM1"),
          [.roomJoined (S "s2") (S "ROOM1") (trimStr (S "bob")) false
            [(aliceW.userId, aliceW.name)],
           .peerJoined (S "s1") (trimStr (S "bob")) nm (S "s2"),
           .createOffer (S "s1") (S "s2") (trimStr (S "bob"))]⟩ :=
  claim_C7 rmW1 (S "s2") (S "ROOM1") (S "bob") none 2 roomW1 (S "s1") aliceW
    (by decide) (by decide) (by decide) (by decide) (by decide) (by decide)
    (by decide) (by decide)

/-- C8: a `host-changed` request from any member of the session makes
the sender host and broadcasts `host-changed` with the sender's
identity to every member of the session, the requester included. -/
theorem claim_C8 :
    ∀ (rm : RoomManager) (sid roomId : Str) (room : Room) (u : User),
      validateRoomId roomId = true →
      normId roomId = roomId →
      rm.getRoom roomId = some room →
      mapGet room.users sid = some u →
      hostChangedHandler rm sid roomId =
        (⟨mapSet rm.rooms roomId { room with hostId := some sid }⟩,
         (room.users.map (fun p => p.1)).map
           (fun k => OutMsg.hostChangedMsg k u.userId u.name sid)) ∧
      sid ∈ room.users.map (fun p => p.1) := by
  intro rm sid roomId room u hv hnorm hg hu
  have hhas : mapHas room.users sid = true := mapHas_of_mapGet hu
  constructor
  · unfold hostChangedHandler
    rw [hv]
    simp only [Bool.not_true, Bool.false_eq_true, if_false]
    rw [hnorm, show rm.getRoom roomId = some room from hg]
    try dsimp only
    rw [hhas]
    simp only [Bool.not_true, Bool.false_eq_true, if_false, if_true]
    unfold RoomManager.setHost
    rw [show rm.getRoom roomId = some room from hg]
    try dsimp only
    rw [hhas]
    simp only [if_true]
    try dsimp only
    unfold RoomManager.getUser
    rw [show (⟨mapSet rm.rooms roomId { room with hostId := some sid }⟩ :
        RoomManager).getRoom roomId =
        some { room with hostId := some sid } from mapGet_mapSet_self _ _ _]
    try dsimp only
    rw [hu]
  · have hmem := mapGet_mem hu
    exact List.mem_map.mpr ⟨(sid, u), hmem, rfl⟩

/-- C8 witness: the non-host member `s2` of `roomW` claims host status
and both `s1` and `s2` are notified. -/
theorem claim_C8_witness :
    hostChangedHandler rmW (S "s2") (S "ROOM1") =
      (⟨mapSet rmW.rooms (S "ROOM1") { roomW with hostId := some (S "s2") }⟩,
       (roomW.users.map (fun p => p.1)).map
         (fun k => OutMsg.hostChangedMsg k bobW.userId bobW.name (S "s2"))) ∧
    S "s2" ∈ roomW.users.map (fun p => p.1) :=
  claim_C8 rmW (S "s2") (S "ROOM1") roomW bobW
    (by decide) (by decide) (by decide) (by decide)

/-! ## Negotiation-queue lemmas -/

theorem peerGood_fresh : peerGood PeerState.fresh :=
  ⟨rfl, fun h => by simp [PeerState.fresh] at h⟩

theorem peerGood_step (st : PeerState) (e : PEvent) (h : peerGood st) :
    peerGood (stepPeer st e) := by
  obtain ⟨hpc, hq⟩ := h
  cases e with
  | ice c =>
    unfold stepPeer addIceCandidate
    rw [hpc]
    by_cases hc : c.candidate = ""
    · simp [hc]
      exact ⟨hpc, hq⟩
    · cases hr : st.remoteDesc.isSome
      · simp [hc, hr]
        exact ⟨rfl, fun habs => by simp [hr] at habs⟩
      · simp [hc, hr, hq hr]
        exact ⟨rfl, fun _ => rfl⟩
  | answer a =>
    unfold stepPeer handleAnswer
    rw [hpc]
    by_cases hbad : a.kind == "" || a.sdp == ""
    · simp [hbad]
      exact ⟨hpc, hq⟩
    · by_cases hsig : st.sigState = SigState.haveLocalOffer
      · simp [hbad, hsig]
        exact ⟨rfl, fun _ => rfl⟩
      · simp [hbad, hsig]
        exact ⟨hpc, hq⟩
  | recvOffer o =>
    unfold stepPeer createAnswer
    rw [hpc]
    by_cases hbad : o.kind == "" || o.sdp == ""
    · simp [hbad]
      exact ⟨hpc, hq⟩
    · by_cases hsig : st.sigState = SigState.stable ∨ st.sigState = SigState.haveRemoteOffer
      · simp [hbad, hsig]
        exact ⟨rfl, fun _ => rfl⟩
      · simp [hbad, hsig]
        exact ⟨hpc, hq⟩
  | makeOffer =>
    unfold stepPeer createOfferStep
    rw [hpc]
    by_cases hsig : st.sigState = SigState.haveLocalOffer ∨ st.sigState = SigState.haveRemoteOffer
    · simp [hsig]
      exact ⟨hpc, hq⟩
    · simp [hsig]
      exact ⟨rfl, hq⟩

theorem applied_pending_step (st : PeerState) (e : PEvent) (h : peerGood st) :
    (stepPeer st e).applied ++ (stepPeer st e).pending =
      (st.applied ++ st.pending) ++ iceArrivals [e] := by
  obtain ⟨hpc, hq⟩ := h
  cases e with
  | ice c =>
    unfold stepPeer addIceCandidate
    rw [hpc]
    by_cases hc : c.candidate = ""
    · simp [hc, iceArrivals]
    · cases hr : st.remoteDesc.isSome
      · simp [hc, hr, iceArrivals]
      · simp [hc, hr, iceArrivals, hq hr]
  | answer a =>
    unfold stepPeer handleAnswer
    rw [hpc]
    by_cases hbad : a.kind == "" || a.sdp == ""
    · simp [hbad, iceArrivals]
    · by_cases hsig : st.sigState = SigState.haveLocalOffer
      · simp [hbad, hsig, iceArrivals]
      · simp [hbad, hsig, iceArrivals]
  | recvOffer o =>
    unfold stepPeer createAnswer
    rw [hpc]
    by_cases hbad : o.kind == "" || o.sdp == ""
    · simp [hbad, iceArrivals]
    · by_cases hsig : st.sigState = SigState.stable ∨ st.sigState = SigState.haveRemoteOffer
      · simp [hbad, hsig, iceArrivals]
      · simp [hbad, hsig, iceArrivals]
  | makeOffer =>
    unfold stepPeer createOfferStep
    rw [hpc]
    by_cases hsig : st.sigState = SigState.haveLocalOffer ∨ st.sigState = SigState.haveRemoteOffer
    · simp [hsig, iceArrivals]
    · simp [hsig, iceArrivals]

theorem runPeer_no_loss_aux (evs : List PEvent) : ∀ st : PeerState, peerGood st →
    (evs.foldl stepPeer st).applied ++ (evs.foldl stepPeer st).pending =
      (st.applied ++ st.pending) ++ iceArrivals evs := by
  induction evs with
  | nil =>
    intro st _
    simp [iceArrivals]
  | cons e t ih =>
    intro st h
    rw [List.foldl_cons, ih _ (peerGood_step st e h), applied_pending_step st e h,
      List.append_assoc]
    congr 1
    cases e with
    | ice c =>
      by_cases hc : c.candidate = "" <;>
        simp [iceArrivals, List.filterMap_cons, hc]
    | answer a => simp [iceArrivals, List.filterMap_cons]
    | recvOffer o => simp [iceArrivals, List.filterMap_cons]
    | makeOffer => simp [iceArrivals, List.filterMap_cons]

/-- C6: a candidate arriving with no remote description set is queued,
not applied; handling an answer (or creating an answer for a received
offer) sets the remote description, applies every queued candidate in
order and empties the queue; and over every event sequence from a fresh
connection the applied-then-pending candidates are exactly the
well-formed arrivals in order, so no queued candidate is lost. -/
theorem claim_C6 :
    (∀ (st : PeerState) (c : Ice), st.pcInit = true → st.remoteDesc = none →
      (c.candidate == "") = false →
      addIceCandidate st c = { st with pending := st.pending ++ [c] }) ∧
    (∀ (st : PeerState) (a : Sdp), st.pcInit = true →
      (a.kind == "") = false → (a.sdp == "") = false →
      st.sigState = SigState.haveLocalOffer →
      handleAnswer st a = { st with
        remoteDesc := some a
        sigState := SigState.stable
        applied := st.applied ++ st.pending
        pending := [] }) ∧
    (∀ (st : PeerState) (o : Sdp), st.pcInit = true →
      (o.kind == "") = false → (o.sdp == "") = false →
      st.sigState = SigState.stable →
      createAnswer st o = { st with
        remoteDesc := some o
        sigState := SigState.stable
        applied := st.applied ++ st.pending
        pending := [] }) ∧
    (∀ evs : List PEvent,
      (runPeer evs).applied ++ (runPeer evs).pending = iceArrivals evs) := by
  refine ⟨?_, ?_, ?_, ?_⟩
  · intro st c hpc hr hc
    unfold addIceCandidate
    rw [hpc, hc, hr]
    rfl
  · intro st a hpc hk hs hsig
    unfold handleAnswer
    rw [hpc, hk, hs, hsig]
    rfl
  · intro st o hpc hk hs hsig
    unfold createAnswer
    rw [hpc, hk, hs]
    simp [hsig]
  · intro evs
    have := runPeer_no_loss_aux evs PeerState.fresh peerGood_fresh
    simpa [runPeer, PeerState.fresh] using this

/-- C6 witness: a first candidate is queued while no remote description
exists; an answer then drains the two queued candidates in order; a
mixed run applies exactly its three well-formed candidates in order. -/
theorem claim_C6_witness :
    addIceCandidate PeerState.fresh ⟨"cand1"⟩ =
      { PeerState.fresh with pending := [⟨"cand1"⟩] } ∧
    handleAnswer ⟨true, none, SigState.haveLocalOffer, [⟨"c1"⟩, ⟨"c2"⟩], []⟩
        ⟨"answer", "sdp"⟩ =
      ⟨true, some ⟨"answer", "sdp"⟩, SigState.stable, [], [⟨"c1"⟩, ⟨"c2"⟩]⟩ ∧
    (runPeer [.ice ⟨"c1"⟩, .makeOffer, .ice ⟨"c2"⟩, .answer ⟨"answer", "sdp"⟩,
        .ice ⟨"c3"⟩]).applied ++
      (runPeer [.ice ⟨"c1"⟩, .makeOffer, .ice ⟨"c2"⟩, .answer ⟨"answer", "sdp"⟩,
        .ice ⟨"c3"⟩]).pending =
      iceArrivals [.ice ⟨"c1"⟩, .makeOffer, .ice ⟨"c2"⟩, .answer ⟨"answer", "sdp"⟩,
        .ice ⟨"c3"⟩] :=
  ⟨claim_C6.1 PeerState.fresh ⟨"cand1"⟩ rfl rfl (by decide),
   claim_C6.2.1 ⟨true, none, SigState.haveLocalOffer, [⟨"c1"⟩, ⟨"c2"⟩], []⟩
     ⟨"answer", "sdp"⟩ rfl (by decide) (by decide) rfl,
   claim_C6.2.2.2 [.ice ⟨"c1"⟩, .makeOffer, .ice ⟨"c2"⟩, .answer ⟨"answer", "sdp"⟩,
     .ice ⟨"c3"⟩]⟩

/-! ## Normal-form lemmas for session ids -/

theorem upChar_idem (c : Char) : upChar (upChar c) = upChar c := by
  unfold upChar
  cases hf : lowerUpper.find? (fun p => p.1 == c) with
  | none => simp [hf]
  | some p =>
    have hp : p ∈ lowerUpper := List.mem_of_find?_eq_some hf
    have hnone : ∀ q ∈ lowerUpper,
        lowerUpper.find? (fun r => r.1 == q.2) = none := by decide
    simp [hnone p hp]

theorem isWsChar_upChar (c : Char) : isWsChar (upChar c) = isWsChar c := by
  unfold upChar
  cases hf : lowerUpper.find? (fun p => p.1 == c) with
  | none => rfl
  | some p =>
    have hp : p ∈ lowerUpper := List.mem_of_find?_eq_some hf
    have hc : p.1 = c := by
      have := List.find?_some hf
      simpa using this
    have hws : ∀ q ∈ lowerUpper, isWsChar q.2 = isWsChar q.1 := by decide
    rw [← hc, hws p hp]

theorem dropWhile_head_false {α : Type} {p : α → Bool} {l : List α} {c : α}
    (h : (l.dropWhile p).head? = some c) : p c = false := by
  induction l with
  | nil => simp at h
  | cons a t ih =>
    by_cases ha : p a
    · rw [List.dropWhile_cons_of_pos ha] at h
      exact ih h
    · rw [List.dropWhile_cons_of_neg ha] at h
      obtain rfl : a = c := by simpa using h
      simpa using ha

theorem dropWhile_eq_self_of_head {α : Type} {p : α → Bool} {l : List α}
    (h : ∀ c, l.head? = some c → p c = false) : l.dropWhile p = l := by
  cases l with
  | nil => rfl
  | cons a t =>
    have := h a rfl
    rw [List.dropWhile_cons_of_neg (by simp [this])]

theorem getLast?_dropWhile {α : Type} {p : α → Bool} {l : List α}
    (h : l.dropWhile p ≠ []) : (l.dropWhile p).getLast? = l.getLast? := by
  induction l with
  | nil => simp at h
  | cons a t ih =>
    by_cases ha : p a
    · rw [List.dropWhile_cons_of_pos ha] at h ⊢
      rw [ih h]
      have ht : t ≠ [] := by
        intro he
        rw [he] at h
        simp at h
      obtain ⟨b, t', rfl⟩ := List.exists_cons_of_ne_nil ht
      rw [List.getLast?_cons_cons]
    · rw [List.dropWhile_cons_of_neg ha]

theorem trimStr_getLast {s : Str} {c : Char}
    (h : (trimStr s).getLast? = some c) : isWsChar c = false := by
  unfold trimStr at h
  rw [List.getLast?_eq_head?_reverse, List.reverse_reverse] at h
  exact dropWhile_head_false h

theorem trimStr_head {s : Str} {c : Char}
    (h : (trimStr s).head? = some c) : isWsChar c = false := by
  unfold trimStr at h
  rw [List.head?_reverse] at h
  have hne : (s.dropWhile isWsChar).reverse.dropWhile isWsChar ≠ [] := by
    intro he
    rw [he] at h
    simp at h
  rw [getLast?_dropWhile hne, List.getLast?_eq_head?_reverse,
    List.reverse_reverse] at h
  exact dropWhile_head_false h

theorem trimStr_eq_self {l : Str}
    (hh : ∀ c, l.head? = some c → isWsChar c = false)
    (hl : ∀ c, l.getLast? = some c → isWsChar c = false) : trimStr l = l := by
  unfold trimStr
  rw [dropWhile_eq_self_of_head hh]
  rw [dropWhile_eq_self_of_head (fun c hc => hl c (by
    rwa [List.head?_reverse] at hc))]
  exact List.reverse_reverse l

theorem upStr_idem (l : Str) : upStr (upStr l) = upStr l := by
  unfold upStr
  rw [List.map_map]
  exact List.map_congr_left (fun a _ => upChar_idem a)

theorem normId_idem (s : Str) : normId (normId s) = normId s := by
  unfold normId
  have ht : trimStr (upStr (trimStr s)) = upStr (trimStr s) := by
    refine trimStr_eq_self ?_ ?_
    · intro c hc
      rw [show (upStr (trimStr s)).head? = ((trimStr s).head?).map upChar by
        simp [upStr]] at hc
      cases hd : (trimStr s).head? with
      | none => rw [hd] at hc; simp at hc
      | some d =>
        rw [hd] at hc
        obtain rfl : upChar d = c := by simpa using hc
        rw [isWsChar_upChar]
        exact trimStr_head hd
    · intro c hc
      rw [show (upStr (trimStr s)).getLast? = ((trimStr s).getLast?).map upChar by
        simp [upStr]] at hc
      cases hd : (trimStr s).getLast? with
      | none => rw [hd] at hc; simp at hc
      | some d =>
        rw [hd] at hc
        obtain rfl : upChar d = c := by simpa using hc
        rw [isWsChar_upChar]
        exact trimStr_getLast hd
  rw [ht, upStr_idem]

/-! ## Key-uniqueness lemmas -/

theorem mem_keys_of_mem {α : Type} {m : List (Str × α)} {p : Str × α}
    (h : p ∈ m) : p.1 ∈ m.map (fun q => q.1) :=
  List.mem_map.mpr ⟨p, h, rfl⟩

theorem mapGet_eq_of_mem_nodup {α : Type} {m : List (Str × α)} {k : Str} {v : α}
    (hm : (k, v) ∈ m) (hnd : (m.map (fun q => q.1)).Nodup) :
    mapGet m k = some v := by
  induction m with
  | nil => simp at hm
  | cons p t ih =>
    rw [List.map_cons, List.nodup_cons] at hnd
    rcases List.mem_cons.mp hm with he | ht
    · rw [← he]
      simp [mapGet_cons]
    · rw [mapGet_cons]
      by_cases hp : p.1 = k
      · exact absurd (hp ▸ mem_keys_of_mem ht) hnd.1
      · simp only [hp, if_false]
        exact ih ht hnd.2

theorem mem_keys_mapSet {α : Type} {m : List (Str × α)} {k a : Str} {v : α}
    (h : a ∈ (mapSet m k v).map (fun q => q.1)) :
    a ∈ m.map (fun q => q.1) ∨ a = k := by
  obtain ⟨p, hp, he⟩ := List.mem_map.mp h
  rcases mem_mapSet hp with hm | hkv
  · exact Or.inl (he ▸ mem_keys_of_mem hm)
  · right
    rw [← he, hkv]

theorem keys_nodup_mapSet {α : Type} {m : List (Str × α)} {k : Str} {v : α}
    (h : (m.map (fun q => q.1)).Nodup) :
    ((mapSet m k v).map (fun q => q.1)).Nodup := by
  induction m with
  | nil => simp [mapSet]
  | cons p t ih =>
    rw [List.map_cons, List.nodup_cons] at h
    by_cases hp : p.1 = k
    · rw [show mapSet (p :: t) k v = (k, v) :: t by simp [mapSet, hp]]
      rw [List.map_cons, List.nodup_cons]
      exact ⟨hp ▸ h.1, h.2⟩
    · rw [show mapSet (p :: t) k v = p :: mapSet t k v by simp [mapSet, hp]]
      rw [List.map_cons, List.nodup_cons]
      refine ⟨fun hmem => ?_, ih h.2⟩
      rcases mem_keys_mapSet hmem with hold | hkk
      · exact h.1 hold
      · exact hp hkk

theorem keys_nodup_mapDelete {α : Type} {m : List (Str × α)} {k : Str}
    (h : (m.map (fun q => q.1)).Nodup) :
    ((mapDelete m k).map (fun q => q.1)).Nodup :=
  ((List.filter_sublist m).map (fun q => q.1)).nodup h

theorem mem_mapDelete_ne {α : Type} {m : List (Str × α)} {k : Str}
    {p : Str × α} (h : p ∈ mapDelete m k) : p ∈ m ∧ ¬ (p.1 = k) := by
  have := List.mem_filter.mp h
  exact ⟨this.1, by simpa using this.2⟩

theorem mem_mapSet_same_key {α : Type} {m : List (Str × α)} {k : Str} {v v' : α}
    (hnd : (m.map (fun q => q.1)).Nodup) (h : (k, v) ∈ mapSet m k v') :
    v = v' := by
  have h1 : mapGet (mapSet m k v') k = some v' := mapGet_mapSet_self m k v'
  have h2 : mapGet (mapSet m k v') k = some v :=
    mapGet_eq_of_mem_nodup h (keys_nodup_mapSet hnd)
  rw [h1] at h2
  exact (Option.some_injective _ h2).symm

theorem mapHas_mapSet_true {α : Type} {m : List (Str × α)} {k x : Str} {v : α}
    (h : mapHas (mapSet m k v) x = true) : x = k ∨ mapHas m x = true := by
  by_cases hx : x = k
  · exact Or.inl hx
  · right
    rwa [mapHas, mapGet_mapSet_ne m k x v hx] at h

theorem mapHas_mapDelete_true {α : Type} {m : List (Str × α)} {k x : Str}
    (h : mapHas (mapDelete m k) x = true) : ¬ (x = k) ∧ mapHas m x = true := by
  by_cases hx : x = k
  · rw [mapHas, hx, mapGet_mapDelete_self] at h
    simp at h
  · rw [mapHas, mapGet_mapDelete_ne m k x hx] at h
    exact ⟨hx, h⟩

theorem mapGet_setCur (cur : List (Str × Str)) (sid : Str) (v : Option Str)
    (x : Str) :
    mapGet (setCur cur sid v) x = if x = sid then v else mapGet cur x := by
  cases v with
  | some c =>
    by_cases hx : x = sid
    · simp [setCur, hx, mapGet_mapSet_self]
    · simp [setCur, hx, mapGet_mapSet_ne cur sid x c hx]
  | none =>
    by_cases hx : x = sid
    · simp [setCur, hx, mapGet_mapDelete_self]
    · simp [setCur, hx, mapGet_mapDelete_ne cur sid x hx]

theorem filter_length_le_one {α : Type} {l : List (Str × α)}
    {P : Str × α → Bool} {k : Str}
    (hnd : (l.map (fun q => q.1)).Nodup)
    (hk : ∀ p ∈ l, P p = true → p.1 = k) :
    (l.filter P).length ≤ 1 := by
  induction l with
  | nil => simp
  | cons p t ih =>
    rw [List.map_cons, List.nodup_cons] at hnd
    by_cases hP : P p
    · rw [List.filter_cons_of_pos hP]
      have hnil : t.filter P = [] := by
        rw [List.filter_eq_nil_iff]
        intro q hq hPq
        have hqk : q.1 = k := hk q (List.mem_cons_of_mem _ hq) hPq
        have hpk : p.1 = k := hk p (List.mem_cons_self _ _) hP
        exact hnd.1 ((hpk.trans hqk.symm) ▸ mem_keys_of_mem hq)
      rw [hnil]
      simp
    · rw [List.filter_cons_of_neg hP]
      exact ih hnd.2 (fun q hq => hk q (List.mem_cons_of_mem _ hq))

/-! ## Well-formedness preservation by the membership operations -/

theorem WF_congr_cur {rm : RoomManager} {cur cur' : List (Str × Str)}
    (h : WF ⟨rm, cur⟩) (he : ∀ x, mapGet cur' x = mapGet cur x) :
    WF ⟨rm, cur'⟩ := by
  obtain ⟨h1, h2, h3⟩ := h
  refine ⟨?_, ?_, h3⟩
  · intro x k room hm hmem
    rw [he x]
    exact h1 x k room hm hmem
  · intro x k hx
    rw [he x] at hx
    exact h2 x k hx

theorem handleLeaveRoom_fst (rm : RoomManager) (sid roomId : Str) :
    (handleLeaveRoom rm sid roomId).1 = (rm.removeUser roomId sid).2 := by
  unfold handleLeaveRoom
  cases hres : rm.removeUser roomId sid with
  | mk res rm' => cases res <;> rfl

/-- Removing `sid` from its tracked current room keeps the state
well-formed and leaves `sid` in no room at all. -/
theorem removeUser_WF (rm : RoomManager) (cur : List (Str × Str))
    (sid cr : Str) (h : WF ⟨rm, cur⟩) (hcur : mapGet cur sid = some cr) :
    WF ⟨(rm.removeUser cr sid).2, cur⟩ ∧
    (∀ k room', (k, room') ∈ (rm.removeUser cr sid).2.rooms →
      memberOf room' sid = false) := by
  obtain ⟨h1, h2, h3⟩ := h
  have honly : ∀ k room', (k, room') ∈ rm.rooms → memberOf room' sid = true →
      k = cr ∧ mapGet rm.rooms cr = some room' := by
    intro k room' hm hmem
    have hk := h1 sid k room' hm hmem
    rw [hcur] at hk
    obtain rfl : k = cr := (Option.some_injective _ hk.symm)
    exact ⟨rfl, mapGet_eq_of_mem_nodup hm h3⟩
  unfold RoomManager.removeUser
  cases hg : rm.getRoom cr with
  | none =>
    refine ⟨⟨h1, h2, h3⟩, ?_⟩
    intro k room' hm
    cases hmem : memberOf room' sid with
    | false => rfl
    | true =>
      obtain ⟨rfl, hget⟩ := honly k room' hm hmem
      rw [show mapGet rm.rooms k = rm.getRoom k from rfl, hg] at hget
      exact absurd hget (by simp)
  | some room =>
    dsimp only
    cases hu : mapGet room.users sid with
    | none =>
      refine ⟨⟨h1, h2, h3⟩, ?_⟩
      intro k room' hm
      cases hmem : memberOf room' sid with
      | false => rfl
      | true =>
        obtain ⟨rfl, hget⟩ := honly k room' hm hmem
        rw [show mapGet rm.rooms k = rm.getRoom k from rfl, hg] at hget
        obtain rfl : room = room' := Option.some_injective _ hget
        rw [memberOf, mapHas, hu] at hmem
        simp at hmem
    | some user =>
      dsimp only
      by_cases hz : (mapDelete room.users sid).length = 0
      · simp only [hz, if_true]
        refine ⟨⟨?_, h2, keys_nodup_mapDelete h3⟩, ?_⟩
        · intro x k room' hm hmem
          exact h1 x k room' (mem_mapDelete_ne hm).1 hmem
        · intro k room' hm
          cases hmem : memberOf room' sid with
          | false => rfl
          | true =>
            obtain ⟨rfl, _⟩ := honly k room' (mem_mapDelete_ne hm).1 hmem
            exact absurd rfl (mem_mapDelete_ne hm).2
      · simp only [hz, if_false]
        refine ⟨⟨?_, h2, keys_nodup_mapSet h3⟩, ?_⟩
        · intro x k room' hm hmem
          rcases mem_mapSet hm with hold | hnew
          · exact h1 x k room' hold hmem
          · obtain ⟨rfl, rfl⟩ : cr = k ∧ room' = _ := by
              refine ⟨(congrArg Prod.fst hnew).symm, congrArg Prod.snd hnew⟩
            have hx := mapHas_mapDelete_true
              (show mapHas (mapDelete room.users sid) x = true from hmem)
            have hroom : memberOf room x = true := hx.2
            exact h1 x cr room (mapGet_mem hg) hroom
        · intro k room' hm
          cases hmem : memberOf room' sid with
          | false => rfl
          | true =>
            rcases mem_mapSet hm with hold | hnew
            · obtain ⟨rfl, hget⟩ := honly k room' hold hmem
              obtain rfl : room = room' := by
                rw [show mapGet rm.rooms k = rm.getRoom k from rfl, hg] at hget
                exact Option.some_injective _ hget
              have hsame := mem_mapSet_same_key h3 hm
              rw [hsame, memberOf, mapHas] at hmem
              dsimp only at hmem
              rw [mapGet_mapDelete_self] at hmem
              simp at hmem
            · obtain rfl : room' = _ := congrArg Prod.snd hnew
              rw [memberOf, mapHas] at hmem
              dsimp only at hmem
              rw [mapGet_mapDelete_self] at hmem
              simp at hmem

/-- Creating a room cannot add memberships or break well-formedness. -/
theorem createRoom_WF (rm : RoomManager) (cur : List (Str × Str))
    (roomId : Str) (now : Nat) (h : WF ⟨rm, cur⟩) :
    WF ⟨(rm.createRoom roomId now).2, cur⟩ ∧
    (∀ x, (∀ k room', (k, room') ∈ rm.rooms → memberOf room' x = false) →
      ∀ k room', (k, room') ∈ (rm.createRoom roomId now).2.rooms →
        memberOf room' x = false) := by
  obtain ⟨h1, h2, h3⟩ := h
  unfold RoomManager.createRoom
  cases hg : mapGet rm.rooms roomId with
  | some room => exact ⟨⟨h1, h2, h3⟩, fun x hx => hx⟩
  | none =>
    dsimp only
    constructor
    · refine ⟨?_, h2, keys_nodup_mapSet h3⟩
      intro x k room' hm hmem
      rcases mem_mapSet hm with hold | hnew
      · exact h1 x k room' hold hmem
      · obtain rfl : room' = ⟨roomId, [], none, now⟩ := congrArg Prod.snd hnew
        rw [memberOf, mapHas] at hmem
        simp [mapGet] at hmem
    · intro x hx k room' hm
      rcases mem_mapSet hm with hold | hnew
      · exact hx k room' hold
      · obtain rfl : room' = ⟨roomId, [], none, now⟩ := congrArg Prod.snd hnew
        rw [memberOf, mapHas]
        simp [mapGet]

/-- When `sid` is in no room, adding it (to a normal-form key) and
pointing its tracked room at that key keeps the state well-formed, on
success and on failure alike. -/
theorem addUser_WF (rm : RoomManager) (cur : List (Str × Str))
    (sid roomId : Str) (ud : UserData) (now : Nat) (h : WF ⟨rm, cur⟩)
    (hnosid : ∀ k room', (k, room') ∈ rm.rooms → memberOf room' sid = false)
    (hn : ∃ s, roomId = normId s) :
    WF ⟨(rm.addUser roomId sid ud now).2, setCur cur sid (some roomId)⟩ := by
  obtain ⟨h1, h2, h3⟩ := h
  have hcur' : ∀ x k, mapGet (setCur cur sid (some roomId)) x = some k →
      (x = sid ∧ k = roomId) ∨ (¬ (x = sid) ∧ mapGet cur x = some k) := by
    intro x k hx
    rw [mapGet_setCur] at hx
    by_cases hxs : x = sid
    · rw [if_pos hxs] at hx
      exact Or.inl ⟨hxs, Option.some_injective _ hx.symm⟩
    · rw [if_neg hxs] at hx
      exact Or.inr ⟨hxs, hx⟩
  have hWF2 : ∀ x k, mapGet (setCur cur sid (some roomId)) x = some k →
      ∃ s, k = normId s := by
    intro x k hx
    rcases hcur' x k hx with ⟨_, rfl⟩ | ⟨_, hold⟩
    · exact hn
    · exact h2 x k hold
  have hkeep : ∀ x k room', (k, room') ∈ rm.rooms → memberOf room' x = true →
      mapGet (setCur cur sid (some roomId)) x = some k := by
    intro x k room' hm hmem
    by_cases hxs : x = sid
    · rw [hxs] at hmem
      rw [hnosid k room' hm] at hmem
      exact absurd hmem (by simp)
    · rw [mapGet_setCur, if_neg hxs]
      exact h1 x k room' hm hmem
  unfold RoomManager.addUser
  cases hg : rm.getRoom roomId with
  | none => exact ⟨hkeep, hWF2, h3⟩
  | some room =>
    dsimp only
    by_cases hfull : 2 ≤ room.users.length
    · simp only [hfull, if_true]
      exact ⟨hkeep, hWF2, h3⟩
    · simp only [hfull, if_false]
      by_cases hmem : mapHas room.users sid
      · simp only [hmem, if_true]
        exact ⟨hkeep, hWF2, h3⟩
      · have hmem' : mapHas room.users sid = false := by simpa using hmem
        simp only [hmem', Bool.false_eq_true, if_false]
        refine ⟨?_, hWF2, keys_nodup_mapSet h3⟩
        intro x k room' hm hx
        rcases mem_mapSet hm with hold | hnew
        · exact hkeep x k room' hold hx
        · obtain rfl : roomId = k := (congrArg Prod.fst hnew).symm
          obtain rfl : room' = _ := congrArg Prod.snd hnew
          have hx' : mapHas (mapSet room.users sid _) x = true := hx
          by_cases hxs : x = sid
          · rw [mapGet_setCur, if_pos hxs]
          · rw [mapHas, mapGet_mapSet_ne _ _ _ _ hxs] at hx'
            rw [mapGet_setCur, if_neg hxs]
            exact h1 x roomId room (mapGet_mem hg)
              (show mapHas room.users x = true from hx')

/-- `setHost` never changes membership and keeps the state well-formed. -/
theorem setHost_WF (rm : RoomManager) (cur : List (Str × Str))
    (roomId sid : Str) (h : WF ⟨rm, cur⟩) :
    WF ⟨(rm.setHost roomId sid).2, cur⟩ := by
  obtain ⟨h1, h2, h3⟩ := h
  unfold RoomManager.setHost
  cases hg : rm.getRoom roomId with
  | none => exact ⟨h1, h2, h3⟩
  | some room =>
    dsimp only
    by_cases hmem : mapHas room.users sid
    · simp only [hmem, if_true]
      refine ⟨?_, h2, keys_nodup_mapSet h3⟩
      intro x k room' hm hx
      rcases mem_mapSet hm with hold | hnew
      · exact h1 x k room' hold hx
      · obtain rfl : roomId = k := (congrArg Prod.fst hnew).symm
        obtain rfl : room' = { room with hostId := some sid } :=
          congrArg Prod.snd hnew
        exact h1 x roomId room (mapGet_mem hg) hx
    · simp only [hmem, Bool.false_eq_true, if_false]
      exact ⟨h1, h2, h3⟩

theorem addUser_err {rm : RoomManager} {roomId sid : Str} {ud : UserData}
    {now : Nat} {m : String} {rm' : RoomManager}
    (h : rm.addUser roomId sid ud now = (.err m, rm')) : rm' = rm := by
  unfold RoomManager.addUser at h
  cases hg : rm.getRoom roomId with
  | none =>
    rw [hg] at h
    exact (congrArg Prod.snd h).symm
  | some room =>
    rw [hg] at h
    dsimp only at h
    by_cases hfull : 2 ≤ room.users.length
    · rw [if_pos hfull] at h
      exact (congrArg Prod.snd h).symm
    · rw [if_neg hfull] at h
      by_cases hmem : mapHas room.users sid
      · simp only [hmem, if_true] at h
        exact (congrArg Prod.snd h).symm
      · simp only [show mapHas room.users sid = false by simpa using hmem,
          Bool.false_eq_true, if_false] at h
        exact absurd (congrArg Prod.fst h) (by simp)

theorem addUser_ok_inv {rm : RoomManager} {roomId sid : Str} {ud : UserData}
    {now : Nat} {room' : Room} {user : User} {isHost : Bool} {rm' : RoomManager}
    (h : rm.addUser roomId sid ud now = (.ok room' user isHost, rm')) :
    ∃ room, rm.getRoom roomId = some room ∧ mapHas room.users sid = false := by
  unfold RoomManager.addUser at h
  cases hg : rm.getRoom roomId with
  | none =>
    rw [hg] at h
    exact absurd (congrArg Prod.fst h) (by simp)
  | some room =>
    rw [hg] at h
    dsimp only at h
    by_cases hfull : 2 ≤ room.users.length
    · rw [if_pos hfull] at h
      exact absurd (congrArg Prod.fst h) (by simp)
    · rw [if_neg hfull] at h
      by_cases hmem : mapHas room.users sid
      · simp only [hmem, if_true] at h
        exact absurd (congrArg Prod.fst h) (by simp)
      · exact ⟨room, rfl, by simpa using hmem⟩

theorem hostChanged_fst (rm : RoomManager) (sid roomId : Str) :
    (hostChangedHandler rm sid roomId).1 = rm ∨
    (hostChangedHandler rm sid roomId).1 = (rm.setHost (normId roomId) sid).2 := by
  unfold hostChangedHandler
  by_cases hv : validateRoomId roomId
  · simp only [hv, Bool.not_true, Bool.false_eq_true, if_false]
    cases hg : rm.getRoom (normId roomId) with
    | none => exact Or.inl rfl
    | some room =>
      dsimp only
      by_cases hmem : mapHas room.users sid
      · simp only [hmem, Bool.not_true, Bool.false_eq_true, if_false]
        cases hs : rm.setHost (normId roomId) sid with
        | mk ok rm' =>
          cases ok
          · dsimp only
            exact Or.inr rfl
          · dsimp only
            cases hu : rm'.getUser (normId roomId) sid with
            | none =>
              dsimp only
              exact Or.inr rfl
            | some u =>
              dsimp only
              exact Or.inr rfl
      · simp only [show mapHas room.users sid = false by simpa using hmem,
          Bool.not_false, if_true]
        exact Or.inl trivial
  · simp only [show validateRoomId roomId = false by simpa using hv,
      Bool.not_false, if_true]
    exact Or.inl trivial

theorem createStage_WF (rm : RoomManager) (cur : List (Str × Str))
    (roomId : Str) (now : Nat) (h : WF ⟨rm, cur⟩) :
    WF ⟨if (rm.getRoom roomId).isNone then (rm.createRoom roomId now).2 else rm,
      cur⟩ := by
  by_cases hg : (rm.getRoom roomId).isNone
  · rw [if_pos hg]
    exact (createRoom_WF rm cur roomId now h).1
  · rw [if_neg hg]
    exact h

theorem createStage_nosid (rm : RoomManager) (cur : List (Str × Str))
    (roomId sid : Str) (now : Nat) (h : WF ⟨rm, cur⟩)
    (hx : ∀ k room', (k, room') ∈ rm.rooms → memberOf room' sid = false) :
    ∀ k room',
      (k, room') ∈
        (if (rm.getRoom roomId).isNone then (rm.createRoom roomId now).2
          else rm).rooms →
      memberOf room' sid = false := by
  by_cases hg : (rm.getRoom roomId).isNone
  · rw [if_pos hg]
    exact (createRoom_WF rm cur roomId now h).2 sid hx
  · rw [if_neg hg]
    exact hx

/-- The `join-room` handler keeps the server state well-formed. -/
theorem joinRoom_WF (rm : RoomManager) (cur : List (Str × Str))
    (sid roomId userId : Str) (name : Option Str) (now : Nat)
    (h : WF ⟨rm, cur⟩) :
    WF ⟨(joinRoom rm (mapGet cur sid) sid roomId userId name now).rm,
        setCur cur sid
          (joinRoom rm (mapGet cur sid) sid roomId userId name now).cur⟩ := by
  have hneutral : ∀ (rm' : RoomManager) (v : Option Str), mapGet cur sid = v →
      WF ⟨rm', cur⟩ → WF ⟨rm', setCur cur sid v⟩ := by
    intro rm' v hv hw
    refine WF_congr_cur hw (fun x => ?_)
    rw [mapGet_setCur]
    by_cases hx : x = sid
    · rw [if_pos hx, hx, hv]
    · rw [if_neg hx]
  unfold joinRoom
  cases hv : validateRoomId roomId with
  | false =>
    simp only [hv, Bool.not_false, if_true]
    exact hneutral rm _ rfl h
  | true =>
    simp only [hv, Bool.not_true, Bool.false_eq_true, if_false]
    cases hu : validateUserId userId with
    | false =>
      simp only [hu, Bool.not_false, if_true]
      exact hneutral rm _ rfl h
    | true =>
      simp only [hu, Bool.not_true, Bool.false_eq_true, if_false]
      cases hcur : mapGet cur sid with
      | none =>
        dsimp only
        have hnosid : ∀ k room', (k, room') ∈ rm.rooms →
            memberOf room' sid = false := by
          intro k room' hm
          cases hmem : memberOf room' sid with
          | false => rfl
          | true =>
            have hlink := h.1 sid k room' hm hmem
            rw [hcur] at hlink
            exact absurd hlink (by simp)
        have hW2 := createStage_WF rm cur roomId now h
        have hnosid2 := createStage_nosid rm cur roomId sid now h hnosid
        split
        next m rm3 heq =>
          dsimp only
          obtain rfl : rm3 = _ := addUser_err heq
          exact hneutral _ none hcur hW2
        next room' user isHost rm3 heq =>
          dsimp only
          have hres := addUser_WF _ cur sid (normId roomId)
            ⟨trimStr userId, sanitizedNameOf name⟩ now hW2 hnosid2 ⟨roomId, rfl⟩
          rw [heq] at hres
          exact hres
      | some cr =>
        dsimp only
        by_cases hcr : cr = roomId
        case neg =>
          rw [show (cr == roomId) = false by simpa using hcr]
          simp only [Bool.not_false, if_true]
          cases hL : handleLeaveRoom rm sid cr with
          | mk rmA msgsA =>
            dsimp only
            have hAeq : rmA = (rm.removeUser cr sid).2 := by
              have := handleLeaveRoom_fst rm sid cr
              rw [hL] at this
              exact this
            obtain ⟨hWA, hnosidA⟩ := removeUser_WF rm cur sid cr h hcur
            rw [← hAeq] at hWA hnosidA
            have hW2 := createStage_WF rmA cur roomId now hWA
            have hnosid2 := createStage_nosid rmA cur roomId sid now hWA hnosidA
            split
            next m rm3 heq =>
              dsimp only
              obtain rfl : rm3 = _ := addUser_err heq
              exact hneutral _ (some cr) hcur hW2
            next room' user isHost rm3 heq =>
              dsimp only
              have hres := addUser_WF _ cur sid (normId roomId)
                ⟨trimStr userId, sanitizedNameOf name⟩ now hW2 hnosid2 ⟨roomId, rfl⟩
              rw [heq] at hres
              exact hres
        case pos =>
          rw [show (cr == roomId) = true by simpa using hcr]
          simp only [Bool.not_true, Bool.false_eq_true, if_false]
          obtain ⟨s0, hs0⟩ := h.2.1 sid cr hcur
          have hnidcr : normId roomId = cr := by
            rw [← hcr, hs0, normId_idem]
          have hW2 := createStage_WF rm cur roomId now h
          split
          next m rm3 heq =>
            dsimp only
            obtain rfl : rm3 = _ := addUser_err heq
            exact hneutral _ (some cr) hcur hW2
          next room' user isHost rm3 heq =>
            dsimp only
            obtain ⟨roomB, hgB, hmemB⟩ := addUser_ok_inv heq
            have hnosid2 : ∀ k room'',
                (k, room'') ∈
                  (if (rm.getRoom roomId).isNone then (rm.createRoom roomId now).2
                    else rm).rooms →
                memberOf room'' sid = false := by
              intro k room'' hm
              cases hmem : memberOf room'' sid with
              | false => rfl
              | true =>
                have hlink := hW2.1 sid k room'' hm hmem
                rw [hcur] at hlink
                obtain rfl : cr = k := Option.some_injective _ hlink
                have hgot : mapGet (if (rm.getRoom roomId).isNone
                    then (rm.createRoom roomId now).2 else rm).rooms cr =
                    some room'' :=
                  mapGet_eq_of_mem_nodup hm hW2.2.2
                rw [show mapGet (if (rm.getRoom roomId).isNone
                    then (rm.createRoom roomId now).2 else rm).rooms cr =
                    (if (rm.getRoom roomId).isNone then (rm.createRoom roomId now).2
                      else rm).getRoom cr from rfl, ← hnidcr, hgB] at hgot
                obtain rfl : roomB = room'' := Option.some_injective _ hgot
                rw [memberOf, hmemB] at hmem
                simp at hmem
            have hres := addUser_WF _ cur sid (normId roomId)
              ⟨trimStr userId, sanitizedNameOf name⟩ now hW2 hnosid2 ⟨roomId, rfl⟩
            rw [heq] at hres
            exact hres

/-- Every socket event keeps the server state well-formed. -/
theorem stepServer_WF (st : ServerState) (e : SEvent) (h : WF st) :
    WF (stepServer st e).1 := by
  obtain ⟨rm, cur⟩ := st
  cases e with
  | join sid roomId userId name now =>
    exact joinRoom_WF rm cur sid roomId userId name now h
  | leaveRoom sid =>
    unfold stepServer
    dsimp only
    cases hcur : mapGet cur sid with
    | none => exact h
    | some cr =>
      dsimp only
      cases hL : handleLeaveRoom rm sid cr with
      | mk rmA msgs =>
        dsimp only
        have hAeq : rmA = (rm.removeUser cr sid).2 := by
          have hfst := handleLeaveRoom_fst rm sid cr
          rw [hL] at hfst
          exact hfst
        obtain ⟨hWA, hnosidA⟩ := removeUser_WF rm cur sid cr h hcur
        rw [← hAeq] at hWA hnosidA
        refine ⟨?_, ?_, hWA.2.2⟩
        · intro x k room hm hmem
          by_cases hx : x = sid
          · rw [hx] at hmem
            rw [hnosidA k room hm] at hmem
            exact absurd hmem (by simp)
          · rw [mapGet_mapDelete_ne cur sid x hx]
            exact hWA.1 x k room hm hmem
        · intro x k hx
          by_cases hxs : x = sid
          · rw [hxs, mapGet_mapDelete_self] at hx
            exact absurd hx (by simp)
          · rw [mapGet_mapDelete_ne cur sid x hxs] at hx
            exact hWA.2.1 x k hx
  | disconnect sid =>
    unfold stepServer
    dsimp only
    cases hcur : mapGet cur sid with
    | none => exact h
    | some cr =>
      dsimp only
      cases hL : handleLeaveRoom rm sid cr with
      | mk rmA msgs =>
        dsimp only
        have hAeq : rmA = (rm.removeUser cr sid).2 := by
          have hfst := handleLeaveRoom_fst rm sid cr
          rw [hL] at hfst
          exact hfst
        obtain ⟨hWA, _⟩ := removeUser_WF rm cur sid cr h hcur
        rw [← hAeq] at hWA
        exact hWA
  | hostChange sid roomId =>
    unfold stepServer
    dsimp only
    cases hH : hostChangedHandler rm sid roomId with
    | mk rmH msgs =>
      dsimp only
      have hfst := hostChanged_fst rm sid roomId
      rw [hH] at hfst
      rcases hfst with he | he
      · rw [show rmH = rm from he]
        exact h
      · rw [show rmH = (rm.setHost (normId roomId) sid).2 from he]
        exact setHost_WF rm cur (normId roomId) sid h

theorem WF_init : WF ServerState.init := by
  refine ⟨?_, ?_, ?_⟩
  · intro x k room hm
    simp [ServerState.init, RoomManager.empty] at hm
  · intro x k hx
    simp [ServerState.init, mapGet] at hx
  · simp [ServerState.init, RoomManager.empty]

theorem runServer_WF (evs : List SEvent) : WF (runServer evs) := by
  have hgen : ∀ st, WF st → WF (evs.foldl (fun s e => (stepServer s e).1) st) := by
    induction evs with
    | nil => exact fun st h => h
    | cons e t ih => exact fun st h => ih _ (stepServer_WF st e h)
  exact hgen ServerState.init WF_init

/-- A well-formed state holds each connection in at most one room. -/
theorem WF_count (st : ServerState) (h : WF st) (x : Str) :
    (st.rm.rooms.filter (fun p => memberOf p.2 x)).length ≤ 1 := by
  cases hc : mapGet st.cur x with
  | none =>
    rw [show st.rm.rooms.filter (fun p => memberOf p.2 x) = [] from ?_]
    · simp
    · rw [List.filter_eq_nil_iff]
      intro p hp hmem
      have hlink := h.1 x p.1 p.2 (by simpa using hp) (by simpa using hmem)
      rw [hc] at hlink
      exact absurd hlink (by simp)
  | some k =>
    refine @filter_length_le_one Room st.rm.rooms (fun p => memberOf p.2 x) k
      h.2.2 ?_
    intro p hp hmem
    have hlink := h.1 x p.1 p.2 (by simpa using hp) (by simpa using hmem)
    rw [hc] at hlink
    exact (Option.some_injective _ hlink.symm)

/-- A join that changes room first runs the full leave cleanup on the
old room and then behaves exactly like a fresh join. -/
theorem joinRoom_leave_first (rm : RoomManager) (sid roomId userId cr : Str)
    (name : Option Str) (now : Nat)
    (hv : validateRoomId roomId = true) (hu : validateUserId userId = true)
    (hcr : ¬ (cr = roomId)) :
    (joinRoom rm (some cr) sid roomId userId name now).rm =
      (joinRoom (handleLeaveRoom rm sid cr).1 none sid roomId userId name now).rm ∧
    (joinRoom rm (some cr) sid roomId userId name now).out =
      (handleLeaveRoom rm sid cr).2 ++
      (joinRoom (handleLeaveRoom rm sid cr).1 none sid roomId userId name
        now).out := by
  unfold joinRoom
  simp only [hv, hu, Bool.not_true, Bool.false_eq_true, if_false]
  rw [show (cr == roomId) = false by simpa using hcr]
  simp only [Bool.not_false, if_true]
  cases hL : handleLeaveRoom rm sid cr with
  | mk rmA msgsA =>
    dsimp only
    constructor
    · split
      next m rm3 heq => rfl
      next room' user isHost rm3 heq => rfl
    · split
      next m rm3 heq => simp
      next room' user isHost rm3 heq => simp

/-- A repeated join for the (canonical) current room id with the session
not full is rejected as already-a-member and changes nothing. -/
theorem joinRoom_same_id_already (rm : RoomManager) (sid roomId userId : Str)
    (name : Option Str) (now : Nat) (room : Room)
    (hv : validateRoomId roomId = true) (hu : validateUserId userId = true)
    (hnorm : normId roomId = roomId) (hg : rm.getRoom roomId = some room)
    (hmem : mapHas room.users sid = true) (hlen : room.users.length = 1) :
    joinRoom rm (some roomId) sid roomId userId name now =
      ⟨rm, some roomId, [.errMsg sid "User already in room"]⟩ := by
  unfold joinRoom
  simp only [hv, hu, Bool.not_true, Bool.false_eq_true, if_false]
  rw [show (roomId == roomId) = true by simp]
  simp only [Bool.not_true, Bool.false_eq_true, if_false]
  rw [show rm.getRoom roomId = some room from hg]
  simp only [Option.isNone_some, Bool.false_eq_true, if_false]
  unfold RoomManager.addUser
  rw [hnorm, show rm.getRoom roomId = some room from hg]
  dsimp only
  rw [hlen]
  rw [if_neg (by omega : ¬ 2 ≤ 1)]
  rw [hmem]
  rfl

/-- A repeated join for the (canonical) current room id with the session
full is rejected as room-full and changes nothing. -/
theorem joinRoom_same_id_full (rm : RoomManager) (sid roomId userId : Str)
    (name : Option Str) (now : Nat) (room : Room)
    (hv : validateRoomId roomId = true) (hu : validateUserId userId = true)
    (hnorm : normId roomId = roomId) (hg : rm.getRoom roomId = some room)
    (hlen : 2 ≤ room.users.length) :
    joinRoom rm (some roomId) sid roomId userId name now =
      ⟨rm, some roomId, [.errMsg sid "Room is full"]⟩ := by
  unfold joinRoom
  simp only [hv, hu, Bool.not_true, Bool.false_eq_true, if_false]
  rw [show (roomId == roomId) = true by simp]
  simp only [Bool.not_true, Bool.false_eq_true, if_false]
  rw [show rm.getRoom roomId = some room from hg]
  simp only [Option.isNone_some, Bool.false_eq_true, if_false]
  unfold RoomManager.addUser
  rw [hnorm, show rm.getRoom roomId = some room from hg]
  dsimp only
  rw [if_pos hlen]
  rfl

/-- C10 counterexample: a member of a full session who repeats its join
with the same id is rejected with `Room is full`, not with the
already-a-member error the claim states. -/
theorem claim_C10_cex :
    joinRoom rmW (some (S "ROOM1")) (S "s1") (S "ROOM1") (S "alice") none 9 =
      ⟨rmW, some (S "ROOM1"), [.errMsg (S "s1") "Room is full"]⟩ ∧
    (OutMsg.errMsg (S "s1") "Room is full" ≠
      OutMsg.errMsg (S "s1") "User already in room") := by
  decide

/-- C10 (amended): every connection is a member of at most one session
over any event sequence; a join for a different session id first runs
the full leave cleanup on the previous session and then acts as a fresh
join; and a repeated join for the same (canonical) session id skips the
leave and is rejected with no state change — as already-a-member when
the session is not full, and as room-full when it already holds two
members. -/
theorem claim_C10 :
    (∀ (evs : List SEvent) (sid : Str),
      ((runServer evs).rm.rooms.filter (fun p => memberOf p.2 sid)).length ≤ 1) ∧
    (∀ (rm : RoomManager) (sid roomId userId cr : Str) (name : Option Str)
      (now : Nat), validateRoomId roomId = true → validateUserId userId = true →
      ¬ (cr = roomId) →
      (joinRoom rm (some cr) sid roomId userId name now).rm =
        (joinRoom (handleLeaveRoom rm sid cr).1 none sid roomId userId name
          now).rm ∧
      (joinRoom rm (some cr) sid roomId userId name now).out =
        (handleLeaveRoom rm sid cr).2 ++
        (joinRoom (handleLeaveRoom rm sid cr).1 none sid roomId userId name
          now).out) ∧
    (∀ (rm : RoomManager) (sid roomId userId : Str) (name : Option Str)
      (now : Nat) (room : Room), validateRoomId roomId = true →
      validateUserId userId = true → normId roomId = roomId →
      rm.getRoom roomId = some room → mapHas room.users sid = true →
      room.users.length = 1 →
      joinRoom rm (some roomId) sid roomId userId name now =
        ⟨rm, some roomId, [.errMsg sid "User already in room"]⟩) ∧
    (∀ (rm : RoomManager) (sid roomId userId : Str) (name : Option Str)
      (now : Nat) (room : Room), validateRoomId roomId = true →
      validateUserId userId = true → normId roomId = roomId →
      rm.getRoom roomId = some room → 2 ≤ room.users.length →
      joinRoom rm (some roomId) sid roomId userId name now =
        ⟨rm, some roomId, [.errMsg sid "Room is full"]⟩) := by
  refine ⟨?_, ?_, ?_, ?_⟩
  · intro evs sid
    exact WF_count (runServer evs) (runServer_WF evs) sid
  · intro rm sid roomId userId cr name now hv hu hcr
    exact joinRoom_leave_first rm sid roomId userId cr name now hv hu hcr
  · intro rm sid roomId userId name now room hv hu hnorm hg hmem hlen
    exact joinRoom_same_id_already rm sid roomId userId name now room
      hv hu hnorm hg hmem hlen
  · intro rm sid roomId userId name now room hv hu hnorm hg hlen
    exact joinRoom_same_id_full rm sid roomId userId name now room
      hv hu hnorm hg hlen

/-- C10 witness: after two concrete joins the registry holds `s1` in
exactly one room, and the sole member of `roomW1` repeating its join is
rejected as already-a-member with nothing changed. -/
theorem claim_C10_witness :
    ((runServer [.join (S "s1") (S "ROOM1") (S "alice") none 1,
        .join (S "s2") (S "ROOM1") (S "bob") none 2]).rm.rooms.filter
      (fun p => memberOf p.2 (S "s1"))).length ≤ 1 ∧
    joinRoom rmW1 (some (S "ROOM1")) (S "s1") (S "ROOM1") (S "alice") none 9 =
      ⟨rmW1, some (S "ROOM1"), [.errMsg (S "s1") "User already in room"]⟩ :=
  ⟨claim_C10.1 [.join (S "s1") (S "ROOM1") (S "alice") none 1,
      .join (S "s2") (S "ROOM1") (S "bob") none 2] (S "s1"),
   claim_C10.2.2.1 rmW1 (S "s1") (S "ROOM1") (S "alice") none 9 roomW1
     (by decide) (by decide) (by decide) (by decide) (by decide) (by decide)⟩

end WatchTogether
